import Mathlib

/-!
A shallow embedding, in Lean 4, of the TREC run construction, validation and
scoring pipeline of the `RAG-with-LLMs-TREC-2025-Information-Retrieval`
repository (the evaluation CLI under `backend/eval/eval_cli` together with the
shared run model under `shared/evaluation`), and proofs of the behavioural
properties stated about it.

Modelling conventions:
* Python `float` scores are embedded as `ℚ` (all scores in the pipeline are
  finite; pydantic forbids NaN/Infinity). Decimal formatting (`%.6f`) is
  modelled as exact rounding to six decimal places.
* Python `str` values are Lean `String`s; where character-level behaviour
  matters (stripping, splitting on tabs, numeric parsing) we work on the
  underlying `List Char`.
* Python `dict`s keyed by strings are modelled either as association lists in
  insertion order (when iteration order matters) or as lookup functions
  `String → Option _` (when only `.get` access matters). Python `dict`
  iteration order is first-insertion order of keys, reproduced by the
  `dedupFirst` helper below.
* Python `set`s of strings are `Finset String`.
* File-system and subprocess effects are made explicit: a written file is its
  list of lines, a subprocess invocation is an oracle argument giving the one
  outcome of the single call the code makes.
-/

/-! ### Generic list helpers -/

/-- Keys of a Python dict built by repeated insertion, in iteration order:
each distinct element of `l` once, at its first occurrence. -/
def dedupFirstAux {α : Type} [DecidableEq α] (seen : List α) : List α → List α
  | [] => []
  | a :: as =>
    if a ∈ seen then dedupFirstAux seen as
    else a :: dedupFirstAux (a :: seen) as

def dedupFirst {α : Type} [DecidableEq α] (l : List α) : List α :=
  dedupFirstAux [] l

/-- Insert into a sorted list, after all elements `b` with `le a b = false`:
together with `sortBy` below this reproduces Python's stable `sorted`. -/
def insertSorted {α : Type} (le : α → α → Bool) (a : α) : List α → List α
  | [] => [a]
  | b :: bs => if le a b then a :: b :: bs else b :: insertSorted le a bs

/-- Stable insertion sort, modelling Python's `sorted(l, key=...)`. -/
def sortBy {α : Type} (le : α → α → Bool) (l : List α) : List α :=
  l.foldr (insertSorted le) []

/-! ### Characters, digits and numeral rendering/parsing

Python-faithful models of `str(int)`, `int(str)`, `float(str)` and `%.6f`
formatting, restricted to the character sets this pipeline actually produces
(optional sign, decimal digits, one decimal point; no exponents, underscores
or unicode digits — the writer never emits those). -/

def digitChar (n : ℕ) : Char := Char.ofNat (48 + n)

def isDigitChar (c : Char) : Bool := 48 ≤ c.toNat && c.toNat ≤ 57

def charToDigit (c : Char) : ℕ := c.toNat - 48

/-- Characters stripped by Python's `str.strip()` (ASCII whitespace; the
strings in this pipeline contain no exotic unicode whitespace). -/
def pyWhitespace (c : Char) : Bool :=
  c = ' ' || c = '\t' || c = '\n' || c = '\x0d' || c = '\x0b' || c = '\x0c'

/-- Python `str.strip()` on the character list. -/
def pyStrip (l : List Char) : List Char :=
  ((l.dropWhile pyWhitespace).reverse.dropWhile pyWhitespace).reverse

/-- Python `s.split(sep)` for a single-character separator: split at every
occurrence, keeping empty parts. -/
def splitOnChar (sep : Char) : List Char → List (List Char)
  | [] => [[]]
  | c :: cs =>
    match splitOnChar sep cs with
    | [] => [[c]]
    | p :: ps => if c = sep then [] :: p :: ps else (c :: p) :: ps

/-- Python `line.split("\t")` on the character list. -/
def splitTab (l : List Char) : List (List Char) := splitOnChar '\t' l

/-- Digits of `n` in base 10, most significant first (fuel-driven so that it
is structural and kernel-reducible). -/
def natToCharsAux : ℕ → ℕ → List Char
  | 0, _ => []
  | fuel + 1, n =>
    if n < 10 then [digitChar n]
    else natToCharsAux fuel (n / 10) ++ [digitChar (n % 10)]

/-- Python `str(n)` for a natural number. -/
def natToChars (n : ℕ) : List Char := natToCharsAux (n + 1) n

/-- Python `str(i)` for an integer. -/
def intToChars (i : ℤ) : List Char :=
  if i < 0 then '-' :: natToChars i.natAbs else natToChars i.natAbs

/-- Parse an unsigned decimal numeral (every character a digit, nonempty). -/
def parseNat (l : List Char) : Option ℕ :=
  if l ≠ [] ∧ l.all isDigitChar then
    some (l.foldl (fun a c => a * 10 + charToDigit c) 0)
  else none

/-- Python `int(s)` restricted to an optional sign and decimal digits
(the run files this pipeline reads back contain nothing else). -/
def parseInt (l : List Char) : Option ℤ :=
  match l with
  | [] => none
  | c :: rest =>
    if c = '-' then (parseNat rest).map (fun n => -(n : ℤ))
    else if c = '+' then (parseNat rest).map (fun n => (n : ℤ))
    else (parseNat (c :: rest)).map (fun n => (n : ℤ))

/-- Digit-sequence value together with its length (for fractional parts). -/
def digitsVal (l : List Char) : ℕ :=
  l.foldl (fun a c => a * 10 + charToDigit c) 0

/-- The unsigned part of `float(s)`: digits with at most one point. -/
def parseFloatCore (m : List Char) : Option ℚ :=
  match splitOnChar '.' m with
  | [ip] =>
    if ip ≠ [] ∧ ip.all isDigitChar then some ((digitsVal ip : ℚ)) else none
  | [ip, fp] =>
    if (ip ≠ [] ∨ fp ≠ []) ∧ ip.all isDigitChar ∧ fp.all isDigitChar then
      some ((digitsVal ip : ℚ) + (digitsVal fp : ℚ) / (10 : ℚ) ^ fp.length)
    else none
  | _ => none

/-- Python `float(s)` restricted to the decimal forms
`[sign] digits`, `[sign] digits . digits`, `[sign] . digits`,
`[sign] digits .` — the forms relevant to run files and evaluator output. -/
def parseFloat (l : List Char) : Option ℚ :=
  match l with
  | [] => none
  | c :: rest =>
    if c = '-' then (parseFloatCore rest).map (fun q => -q)
    else if c = '+' then parseFloatCore rest
    else parseFloatCore (c :: rest)

/-- Exact value of rounding `q` to six decimal places — the value the text
produced by `%.6f` formatting denotes. -/
def round6 (q : ℚ) : ℚ := (round (q * 1000000) : ℚ) / 1000000

/-- Model of Python `f"{score:.6f}"`: the decimal rendering of `round6 score`
with exactly six digits after the point. (Tie-breaking at exact half-units of
10⁻⁶ is round-half-up here; binary doubles are never exactly at such
ties for the values this pipeline handles.) -/
def formatScore6 (q : ℚ) : List Char :=
  let n : ℤ := round (q * 1000000)
  let m : ℕ := n.natAbs
  let frac : List Char := natToChars (m % 1000000)
  let digits : List Char :=
    natToChars (m / 1000000) ++ '.' :: (List.replicate (6 - frac.length) '0' ++ frac)
  if n < 0 then '-' :: digits else digits

/-! ### Data model: run rows, runs, metadata

From `backend/eval/eval_cli/models/runs.py`. The pydantic field constraints
(`rank` strictly positive, `score` finite) are recorded where the code
depends on them; `score : ℚ` is finite by construction. The `timestamp`
field of `RunMetadata` (wall-clock default) is omitted: nothing in the
embedded operations reads it. -/

structure TrecRunRow where
  query_id : String
  q0 : String := "Q0"
  doc_id : String
  rank : ℤ
  score : ℚ
  run_id : String
deriving DecidableEq

structure RunMetadata where
  run_id : String
  config_snapshot : List (String × String)
  topic_source : String
  retrieval_mode : String
  top_k : ℤ
  num_queries : ℕ
deriving DecidableEq

structure TrecRun where
  rows : List TrecRunRow
  metadata : RunMetadata
deriving DecidableEq

/-! ### Data model: qrels

From `backend/eval/eval_cli/io/qrels.py`. `relevance` is a pydantic
non-negative integer (`ge=0`), embedded as `ℕ`. -/

structure QrelEntry where
  query_id : String
  doc_id : String
  relevance : ℕ
deriving DecidableEq

structure Qrels where
  entries : List QrelEntry
deriving DecidableEq

/-- Model of `Qrels.get_relevant_docs`: the set of doc ids judged relevant (> 0)
for a query. Python returns a `set`; embedded as a `Finset`. -/
def Qrels.get_relevant_docs (q : Qrels) (query_id : String) : Finset String :=
  ((q.entries.filter
    (fun e => e.query_id = query_id ∧ 0 < e.relevance)).map (fun e => e.doc_id)).toFinset

/-- Model of `Qrels.get_relevance_grades`: the dict comprehension over
matching entries, modelled as its lookup function. A dict built by such a comprehension maps a
key to the value of the **last** matching entry (later insertions
overwrite), hence the `getLast?`. -/
def Qrels.get_relevance_grades (q : Qrels) (query_id : String) (doc_id : String) :
    Option ℕ :=
  ((q.entries.filter
    (fun e => e.query_id = query_id ∧ e.doc_id = doc_id)).getLast?).map
    (fun e => e.relevance)

/-- Model of `Qrels.get_query_ids`. -/
def Qrels.get_query_ids (q : Qrels) : Finset String :=
  (q.entries.map (fun e => e.query_id)).toFinset

/-! ### RunBuilder — `build_trec_run` (`backend/eval/eval_cli/io/runs.py`)

`responses: dict[str, QueryResult]` is embedded as an association list in
insertion order (a Python dict: its keys are distinct). Of `QueryResult`
(from `shared/retrieval/response.py`) only the `segments` list is read, and
of each `RetrievedSegment` only `segment_id` and `score`; the unread fields
(`query_id`, `diagnostics`, `metadata`, `provenance`) are omitted. -/

structure RetrievedSegment where
  segment_id : String
  score : ℚ
deriving DecidableEq

structure QueryResult where
  segments : List RetrievedSegment
deriving DecidableEq

/-- Model of `build_trec_run`: one row per segment among the first 100 of each
query's list, rank = 1-based position, ids and scores copied verbatim. -/
def build_trec_run (responses : List (String × QueryResult)) (run_id : String)
    (metadata : RunMetadata) : TrecRun :=
  { rows :=
      responses.flatMap (fun p =>
        ((p.2.segments.take 100).enumFrom 1).map (fun rs =>
          { query_id := p.1
            doc_id := rs.2.segment_id
            rank := (rs.1 : ℤ)
            score := rs.2.score
            run_id := run_id }))
    metadata := metadata }

/-! ### Run file persistence (`backend/eval/eval_cli/io/runs.py`)

A run file is modelled as its list of lines (each a `List Char`, without the
terminating newline the writer appends and the reader's iteration strips).
Directory creation and OS errors are effects outside the embedding. -/

/-- Model of `TrecRunRow.to_trec_line` (`backend/eval/eval_cli/models/runs.py`):
the 6-column tab-separated line. -/
def TrecRunRow.to_trec_line (row : TrecRunRow) : List Char :=
  row.query_id.data ++ '\t' :: (row.q0.data ++ '\t' :: (row.doc_id.data ++
    '\t' :: (intToChars row.rank ++ '\t' :: (formatScore6 row.score ++
    '\t' :: row.run_id.data))))

/-- Model of `write_trec_run`: the lines written to the file. -/
def write_trec_run (run : TrecRun) : List (List Char) :=
  run.rows.map TrecRunRow.to_trec_line

/-- One iteration of the reader's loop: parse a line into a row, or `none`
when the line is skipped (wrong column count, unparsable rank or score, or a
pydantic `ValidationError` — a `ValueError` subclass caught by the same
`except` — from the `rank > 0` constraint). -/
def parseTrecLine (line : List Char) : Option TrecRunRow :=
  match splitTab (pyStrip line) with
  | [f0, f1, f2, f3, f4, f5] =>
    match parseInt f3, parseFloat f4 with
    | some rank, some score =>
      if 0 < rank then
        some { query_id := String.mk f0, q0 := String.mk f1,
               doc_id := String.mk f2, rank := rank, score := score,
               run_id := String.mk f5 }
      else none
    | _, _ => none
  | _ => none

/-- Model of `read_trec_run`: parses the lines, counts skipped ones, reconstructs
minimal metadata. Returns the run together with the skipped-line count. -/
def read_trec_run (lines : List (List Char)) (file_path : String)
    (run_id : String) : TrecRun × ℕ :=
  let rows := lines.filterMap parseTrecLine
  let skipped := lines.length - rows.length
  let top_k : ℤ := (rows.map (fun r => r.rank)).foldr max 0
  ({ rows := rows
     metadata :=
      { run_id := run_id
        config_snapshot := []
        topic_source := file_path
        retrieval_mode := "unknown"
        top_k := top_k
        num_queries := (rows.map (fun r => r.query_id)).toFinset.card } },
   skipped)

/-! ### Format validation — `TrecRun.validate_format`
(`backend/eval/eval_cli/models/runs.py`)

The Python function returns a list of f-string error messages. Errors are
embedded as a structured type carrying exactly the data each f-string
interpolates, in the order the code appends them. -/

inductive FormatError where
  /-- The message naming the query id and its row count (max 100). -/
  | tooManyResults (query_id : String) (count : ℕ)
  /-- The message naming the query id and the repeated rank. -/
  | duplicateRank (query_id : String) (rank : ℤ)
  /-- The message naming the query id and the sorted duplicated ranks. -/
  | duplicateRanks (query_id : String) (ranks : List ℤ)
  /-- The message naming the query id and the sorted missing ranks. -/
  | missingRanks (query_id : String) (ranks : List ℤ)
  /-- The message naming the query id, the two adjacent ranks and the two
  scores (earlier score printed as less than the later). -/
  | increasingScores (query_id : String) (rank1 : ℤ) (score1 : ℚ)
      (rank2 : ℤ) (score2 : ℚ)
deriving DecidableEq

/-- Distinct query ids of a row list, in first-appearance order — the
iteration order of every `dict` the validator groups rows into. -/
def runQueryIds (rows : List TrecRunRow) : List String :=
  dedupFirst (rows.map (fun r => r.query_id))

/-- Rows of one query, in run order — the per-key lists of those dicts. -/
def rowsFor (rows : List TrecRunRow) (qid : String) : List TrecRunRow :=
  rows.filter (fun r => r.query_id = qid)

/-- First validator pass: per-query row counts over 100. -/
def countErrors (rows : List TrecRunRow) : List FormatError :=
  (runQueryIds rows).filterMap (fun qid =>
    let count := (rowsFor rows qid).length
    if 100 < count then some (.tooManyResults qid count) else none)

/-- Second validator pass: walk the rows in order keeping the set of ranks
seen per query; report a `duplicateRank` each time a rank reappears. -/
def dupRankErrorsAux (seen : String → Finset ℤ) :
    List TrecRunRow → List FormatError
  | [] => []
  | row :: rest =>
    let s := seen row.query_id
    let tail := dupRankErrorsAux
      (fun q => if q = row.query_id then insert row.rank s else seen q) rest
    if row.rank ∈ s then .duplicateRank row.query_id row.rank :: tail else tail

def dupRankErrors (rows : List TrecRunRow) : List FormatError :=
  dupRankErrorsAux (fun _ => ∅) rows

/-- Rows of one query sorted by ascending rank
(`sorted(rows, key=lambda r: r.rank)`, stable). -/
def sortedByRank (rows : List TrecRunRow) : List TrecRunRow :=
  sortBy (fun a b => a.rank ≤ b.rank) rows

/-- Third validator pass, one query's group: duplicate-rank summary, missing
ranks in the dense `1..n` sequence, then the adjacent increasing-score
errors, in code order. -/
def groupErrors (qid : String) (rows : List TrecRunRow) : List FormatError :=
  let sorted_rows := sortedByRank rows
  let ranks := sorted_rows.map (fun r => r.rank)
  let dupErrs : List FormatError :=
    if ranks.length ≠ ranks.toFinset.card then
      [.duplicateRanks qid
        ((ranks.filter (fun r => 1 < ranks.count r)).toFinset.sort (· ≤ ·))]
    else []
  let expected := (List.range sorted_rows.length).map (fun i => ((i : ℤ) + 1))
  let actual := sortBy (fun a b => a ≤ b) ranks
  let missErrs : List FormatError :=
    if actual ≠ expected then
      let missing := expected.toFinset \ ranks.toFinset
      if missing ≠ ∅ then [.missingRanks qid (missing.sort (· ≤ ·))] else []
    else []
  let monoErrs : List FormatError :=
    (sorted_rows.zip sorted_rows.tail).filterMap (fun ab =>
      if ab.1.score < ab.2.score then
        some (.increasingScores qid ab.1.rank ab.1.score ab.2.rank ab.2.score)
      else none)
  dupErrs ++ missErrs ++ monoErrs

/-- Model of `TrecRun.validate_format`: the three passes' findings concatenated. -/
def TrecRun.validate_format (run : TrecRun) : List FormatError :=
  countErrors run.rows ++ dupRankErrors run.rows ++
    (runQueryIds run.rows).flatMap (fun qid => groupErrors qid (rowsFor run.rows qid))

/-! ### Shared run model — `TrecRun.validate_monotonicity`
(`shared/src/shared/evaluation/runs.py`)

A separate pydantic model (`topic_id`/`segment_id` field names, rank bounded
to 1..100 per field constraint) whose `model_validator` **raises** on the
first duplicate rank or epsilon-exceeding score increase instead of
returning error strings. Embedded as a constructor returning `Except`. -/

structure SharedTrecRunRow where
  topic_id : String
  q0 : String := "Q0"
  segment_id : String
  rank : ℤ
  score : ℚ
  run_id : String
deriving DecidableEq

inductive MonoViolation where
  /-- The raised message naming the topic, the repeated rank and the two
  positions. -/
  | duplicateRank (topic_id : String) (rank : ℤ) (pos1 pos2 : ℕ)
  /-- The raised message naming the topic, the later rank and score, the
  earlier rank and score, and the tolerance. -/
  | scoreIncrease (topic_id : String) (rank2 : ℤ) (score2 : ℚ)
      (rank1 : ℤ) (score1 : ℚ)
deriving DecidableEq

/-- The tolerance `eps = 1e-9` of the shared validator. -/
def sharedEps : ℚ := 1 / 1000000000

def sharedSortedByRank (rows : List SharedTrecRunRow) : List SharedTrecRunRow :=
  sortBy (fun a b => a.rank ≤ b.rank) rows

/-- One topic's checks: every duplicate-rank adjacency first, then every
epsilon-exceeding increase; the Python raises at the first finding, so only
the head of this list is ever raised — `Except` takes the head. -/
def sharedTopicViolations (tid : String) (rows : List SharedTrecRunRow) :
    List MonoViolation :=
  let sorted_rows := sharedSortedByRank rows
  let dups : List MonoViolation :=
    ((sorted_rows.zip sorted_rows.tail).enumFrom 1).filterMap (fun iab =>
      if iab.2.1.rank = iab.2.2.rank then
        some (.duplicateRank tid iab.2.2.rank (iab.1 - 1) iab.1)
      else none)
  let incs : List MonoViolation :=
    (sorted_rows.zip sorted_rows.tail).filterMap (fun ab =>
      if ab.1.score + sharedEps < ab.2.score then
        some (.scoreIncrease tid ab.2.rank ab.2.score ab.1.rank ab.1.score)
      else none)
  dups ++ incs

/-- Construction of the shared model's run (its `model_validator`): the `model_validator` walks the
topics in dict (first-appearance) order and raises the first violation. -/
def sharedValidateMonotonicity (rows : List SharedTrecRunRow) :
    Except MonoViolation (List SharedTrecRunRow) :=
  match (dedupFirst (rows.map (fun r => r.topic_id))).flatMap
      (fun tid => sharedTopicViolations tid
        (rows.filter (fun r => r.topic_id = tid))) with
  | [] => .ok rows
  | v :: _ => .error v

/-! ### Custom metrics (`backend/eval/eval_cli/scoring/custom_metrics.py`) -/

/-- The set `{row.doc_id for row in sorted(results, key=lambda x: x.rank)[:10]}`. -/
def top10Docs (results : List TrecRunRow) : Finset String :=
  (((sortedByRank results).take 10).map (fun r => r.doc_id)).toFinset

/-- Model of `compute_hitrate_10`. Note the loop increments `total_queries` for
**every** distinct query of the run, judged or not; only the success test
requires a nonempty relevant set. -/
def compute_hitrate_10 (trec_run : TrecRun) (qrels : Qrels) : ℚ :=
  if trec_run.rows = [] then 0
  else
    let qids := runQueryIds trec_run.rows
    let successful_queries := (qids.filter (fun qid =>
      let relevant_docs := qrels.get_relevant_docs qid
      relevant_docs ≠ ∅ ∧ top10Docs (rowsFor trec_run.rows qid) ∩ relevant_docs ≠ ∅)).length
    let total_queries := qids.length
    if 0 < total_queries then (successful_queries : ℚ) / (total_queries : ℚ) else 0

structure CoverageStats where
  queries_with_judgements : ℕ
  queries_without_judgements : ℕ
  total_relevant_docs : ℕ
  retrieved_relevant_docs : ℕ
deriving DecidableEq

/-- The retrieved doc-id set of one query: `{row.doc_id for row in results}`. -/
def retrievedDocs (results : List TrecRunRow) : Finset String :=
  (results.map (fun r => r.doc_id)).toFinset

/-- Model of `compute_coverage_stats`. A query falls in `queries_with_judgements`
exactly when `qrels.get_relevant_docs(qid)` is nonempty — i.e. when it has a
judged-**relevant** document, not merely any judgment. -/
def compute_coverage_stats (trec_run : TrecRun) (qrels : Qrels) : CoverageStats :=
  if trec_run.rows = [] then ⟨0, 0, 0, 0⟩
  else
    (runQueryIds trec_run.rows).foldl (fun stats qid =>
      let relevant_docs := qrels.get_relevant_docs qid
      if relevant_docs ≠ ∅ then
        { stats with
          queries_with_judgements := stats.queries_with_judgements + 1
          total_relevant_docs := stats.total_relevant_docs + relevant_docs.card
          retrieved_relevant_docs := stats.retrieved_relevant_docs +
            (retrievedDocs (rowsFor trec_run.rows qid) ∩ relevant_docs).card }
      else
        { stats with
          queries_without_judgements := stats.queries_without_judgements + 1 })
      ⟨0, 0, 0, 0⟩

/-! ### Reports (`backend/eval/eval_cli/models/reports.py`)

Statuses are Python string literals (`Literal["pass","warn","fail","unknown"]`);
they stay `String`s here, with pydantic's literal check made explicit in the
validating constructor. `status_counts : dict[str, int]` is embedded as its
lookup function. -/

structure MetricValue where
  name : String
  value : ℚ
  target : Option ℚ
  status : String
  higher_is_better : Bool := true
deriving DecidableEq

structure EvaluationReport where
  metrics : List MetricValue
  status_counts : String → Option ℕ
  overall_status : String

/-- The valid status literals, in declaration order. -/
def validStatuses : List String := ["pass", "warn", "fail", "unknown"]

/-- The actual distribution of statuses in a metric list. -/
def countStatus (metrics : List MetricValue) (s : String) : ℕ :=
  (metrics.filter (fun m => m.status = s)).length

/-- Constructing an `EvaluationReport(...)`: pydantic first enforces the
`Literal` types of `metrics[*].status` and `overall_status`, then the
`validate_status_counts` model validator compares `status_counts.get(s, 0)`
with the recomputed count for each valid status, raising on mismatch. -/
def mkEvaluationReport (metrics : List MetricValue)
    (status_counts : String → Option ℕ) (overall_status : String) :
    Except String EvaluationReport :=
  if ¬ (metrics.all (fun m => validStatuses.contains m.status) &&
        validStatuses.contains overall_status) then
    .error "validation error: status literal"
  else if validStatuses.all
      (fun s => (status_counts s).getD 0 == countStatus metrics s) then
    .ok ⟨metrics, status_counts, overall_status⟩
  else
    .error "status_counts mismatch"

/-! ### KPIAnalyzer (`backend/eval/eval_cli/scoring/kpi_analyzer.py`)

`metrics` and `targets` dicts are embedded as lookup functions. -/

/-- The fixed display-metric list `key_metrics`, in code order. -/
def key_metrics : List (String × String) :=
  [("ndcg_cut_10", "nDCG@10"),
   ("ndcg_cut_25", "nDCG@25"),
   ("ndcg_cut_50", "nDCG@50"),
   ("ndcg_cut_100", "nDCG@100"),
   ("map_cut_100", "MAP@100"),
   ("recip_rank", "MRR@10"),
   ("recall_25", "Recall@25"),
   ("recall_50", "Recall@50"),
   ("recall_100", "Recall@100"),
   ("hitrate_10", "HitRate@10")]

/-- Model of `KPIAnalyzer.analyze_metrics`. -/
def analyze_metrics (metrics : String → Option ℚ) (targets : String → Option ℚ) :
    List MetricValue :=
  key_metrics.map (fun md =>
    let value := (metrics md.1).getD ((metrics ("all." ++ md.1)).getD 0)
    let target := targets md.1
    let status :=
      match target with
      | none => "unknown"
      | some t =>
        if t ≤ value then "pass"
        else if t * (9 / 10) ≤ value then "warn"
        else "fail"
    { name := md.2, value := value, target := target, status := status,
      higher_is_better := true })

/-- Model of the analyzer's overall-status derivation. -/
def determine_overall_status (status_counts : String → Option ℕ) : String :=
  if 0 < (status_counts "fail").getD 0 then "fail"
  else if 0 < (status_counts "warn").getD 0 then "warn"
  else if 0 < (status_counts "pass").getD 0 then "pass"
  else "unknown"

/-- Model of `KPIAnalyzer.create_report`: analyze, tally the statuses, construct the
(validated) report. -/
def create_report (metrics : String → Option ℚ) (targets : String → Option ℚ) :
    Except String EvaluationReport :=
  let metric_values := analyze_metrics metrics targets
  let status_counts : String → Option ℕ := fun s =>
    if s ∈ validStatuses then some (countStatus metric_values s) else none
  mkEvaluationReport metric_values status_counts
    (determine_overall_status status_counts)

/-! ### TrecEvalWrapper (`backend/eval/eval_cli/scoring/trec_eval.py`)

`evaluate` makes a single `subprocess.run` call; the possible outcomes of
that one call are an oracle argument. `check=True` turns a non-zero exit
status into `CalledProcessError`; the 120-second bound is the `timeout`
argument of the call, so the runner oracle receives it explicitly. The
pytrec_eval fallback is likewise an oracle (an external library). -/

inductive SubprocessOutcome where
  | success (stdout : String)
  | timeoutExpired
  | calledProcessError (stderr : String)
  | binaryNotFound
deriving DecidableEq

inductive EvalError where
  /-- The missing-qrels error, carrying the offending path. -/
  | qrelsNotFound (path : String)
  /-- The missing-run-file error, carrying the offending path. -/
  | runNotFound (path : String)
  /-- The timeout error raised after 120 seconds. -/
  | timedOut
  /-- The non-zero-exit error, carrying the tool's stderr text. -/
  | trecEvalFailed (stderr : String)
  /-- an error propagated out of the pytrec_eval fallback -/
  | fallbackError (msg : String)
deriving DecidableEq

/-- The argument vector `evaluate` builds for the external binary. -/
def buildCmd (binary_path : String) (flags : List String)
    (metrics : List String) (qrels_path run_path : String) : List String :=
  binary_path :: flags ++ metrics.flatMap (fun m => ["-m", m]) ++
    [qrels_path, run_path]

/-- The `timeout=120` argument of the single `subprocess.run` call. -/
def subprocessTimeoutSeconds : ℕ := 120

/-- Model of `TrecEvalWrapper.evaluate`. Here `qrelsExists`/`runExists` are the
`Path.exists()` facts; `runner` is the subprocess oracle (argument vector and
timeout bound ↦ outcome of the one call made); `fallback` is the
pytrec_eval-path oracle; `parse` stands for `self._parse_output` (see
`parse_output` below). -/
def TrecEvalWrapper.evaluate (binary_path : String) (flags : List String)
    (metrics : List String) (qrels_path run_path : String)
    (qrelsExists runExists : Bool)
    (runner : List String → ℕ → SubprocessOutcome)
    (parse : String → List (String × ℚ))
    (fallback : Except String (List (String × ℚ))) :
    Except EvalError (List (String × ℚ)) :=
  if qrelsExists = false then .error (.qrelsNotFound qrels_path)
  else if runExists = false then .error (.runNotFound run_path)
  else
    match runner (buildCmd binary_path flags metrics qrels_path run_path)
        subprocessTimeoutSeconds with
    | .success stdout => .ok (parse stdout)
    | .timeoutExpired => .error .timedOut
    | .calledProcessError stderr => .error (.trecEvalFailed stderr)
    | .binaryNotFound =>
      match fallback with
      | .ok m => .ok m
      | .error e => .error (.fallbackError e)

/-! ### `TrecEvalWrapper._parse_output`

The method body in the source is ill-indented (the line
`if len(parts) >= 3:` sits one level deeper than the preceding
`parts = line.split(maxsplit=2)`), which is a Python `IndentationError`:
the module cannot even be imported, although `evaluate` calls
`self._parse_output`. The definition below therefore follows the evident
intent (the same code with that block dedented one level), which is also
what the method's docstring and the spec describe. -/

/-- Python `line.split(maxsplit=2)`: drop leading whitespace, take two
whitespace-delimited fields, and keep the remainder (with its leading
whitespace dropped) as the third part. Returns at most 3 parts; trailing
whitespace-only remainders produce no part. -/
def splitMax2 (l : List Char) : List (List Char) :=
  let l1 := l.dropWhile pyWhitespace
  if l1 = [] then []
  else
    let f1 := l1.takeWhile (fun c => ¬ pyWhitespace c)
    let r1 := (l1.dropWhile (fun c => ¬ pyWhitespace c)).dropWhile pyWhitespace
    if r1 = [] then [f1]
    else
      let f2 := r1.takeWhile (fun c => ¬ pyWhitespace c)
      let r2 := (r1.dropWhile (fun c => ¬ pyWhitespace c)).dropWhile pyWhitespace
      if r2 = [] then [f1, f2] else [f1, f2, r2]

/-- The contribution of one output line: `some (name, value)` when the line
has ≥ 3 fields, its value field parses as a float, and its second field is
the literal `all`; `none` otherwise (blank lines, per-query lines, malformed
values — the latter logged and skipped). -/
def parseOutputLine (line : List Char) : Option (String × ℚ) :=
  match splitMax2 line with
  | [f0, f1, f2] =>
    match parseFloat (pyStrip f2) with
    | some value =>
      if String.mk f1 = "all" then some (String.mk f0, value) else none
    | none => none
  | _ => none

/-- Model of `TrecEvalWrapper._parse_output` (the intended, dedented, code): the metrics
dict accumulated over the lines, modelled as its lookup function — a later
`all` line for the same metric overwrites an earlier one. -/
def parse_output (lines : List (List Char)) (name : String) : Option ℚ :=
  ((lines.filterMap parseOutputLine).filter (fun p => p.1 = name)).getLast?.map
    (fun p => p.2)

/-! ## Helper lemmas -/

theorem mem_dedupFirstAux {α : Type} [DecidableEq α] (seen : List α) (l : List α)
    (x : α) : x ∈ dedupFirstAux seen l ↔ x ∈ l ∧ x ∉ seen := by
  induction l generalizing seen with
  | nil => simp [dedupFirstAux]
  | cons a as ih =>
    by_cases ha : a ∈ seen
    · simp only [dedupFirstAux, if_pos ha, ih, List.mem_cons]
      by_cases hxa : x = a
      · subst hxa; tauto
      · tauto
    · simp only [dedupFirstAux, if_neg ha, List.mem_cons, ih]
      by_cases hxa : x = a
      · subst hxa; tauto
      · tauto

theorem mem_dedupFirst {α : Type} [DecidableEq α] (l : List α) (x : α) :
    x ∈ dedupFirst l ↔ x ∈ l := by
  simp [dedupFirst, mem_dedupFirstAux]

theorem nodup_dedupFirstAux {α : Type} [DecidableEq α] (seen : List α)
    (l : List α) : (dedupFirstAux seen l).Nodup := by
  induction l generalizing seen with
  | nil => simp [dedupFirstAux]
  | cons a as ih =>
    by_cases ha : a ∈ seen
    · simpa [dedupFirstAux, if_pos ha] using ih seen
    · simp only [dedupFirstAux, if_neg ha]
      refine List.nodup_cons.2 ⟨?_, ih (a :: seen)⟩
      intro hmem
      exact ((mem_dedupFirstAux _ _ _).1 hmem).2 (List.mem_cons_self a seen)

theorem nodup_dedupFirst {α : Type} [DecidableEq α] (l : List α) :
    (dedupFirst l).Nodup := nodup_dedupFirstAux [] l

theorem toFinset_dedupFirst {α : Type} [DecidableEq α] (l : List α) :
    (dedupFirst l).toFinset = l.toFinset := by
  ext x; simp [mem_dedupFirst]

theorem length_dedupFirst {α : Type} [DecidableEq α] (l : List α) :
    (dedupFirst l).length = l.toFinset.card := by
  rw [← toFinset_dedupFirst]
  exact (List.toFinset_card_of_nodup (nodup_dedupFirst l)).symm

theorem insertSorted_perm {α : Type} (le : α → α → Bool) (a : α) (l : List α) :
    (insertSorted le a l).Perm (a :: l) := by
  induction l with
  | nil => simp [insertSorted]
  | cons b bs ih =>
    by_cases h : le a b
    · simp [insertSorted, h]
    · simp only [insertSorted, if_neg h]
      exact (List.Perm.cons b ih).trans (List.Perm.swap a b bs)

theorem sortBy_perm {α : Type} (le : α → α → Bool) (l : List α) :
    (sortBy le l).Perm l := by
  induction l with
  | nil => simp [sortBy]
  | cons a as ih =>
    exact (insertSorted_perm le a (sortBy le as)).trans (List.Perm.cons a ih)

theorem mem_sortBy {α : Type} (le : α → α → Bool) (l : List α) (x : α) :
    x ∈ sortBy le l ↔ x ∈ l :=
  (sortBy_perm le l).mem_iff

/-- A `filterMap` whose function succeeds on every element is a `map`. -/
theorem filterMap_eq_map_of_forall_some {α β : Type} {f : α → Option β}
    {g : α → β} {l : List α} (h : ∀ x ∈ l, f x = some (g x)) :
    l.filterMap f = l.map g := by
  induction l with
  | nil => rfl
  | cons a as ih =>
    rw [List.filterMap_cons, h a (List.mem_cons_self a as), List.map_cons,
      ih (fun x hx => h x (List.mem_cons_of_mem a hx))]

/-- The set of distinct query ids of a row list. -/
def runQuerySet (rows : List TrecRunRow) : Finset String :=
  (rows.map (fun r => r.query_id)).toFinset

theorem runQueryIds_nodup (rows : List TrecRunRow) : (runQueryIds rows).Nodup :=
  nodup_dedupFirst _

theorem runQueryIds_length (rows : List TrecRunRow) :
    (runQueryIds rows).length = (runQuerySet rows).card :=
  length_dedupFirst _

theorem mem_runQueryIds (rows : List TrecRunRow) (x : String) :
    x ∈ runQueryIds rows ↔ x ∈ rows.map (fun r => r.query_id) :=
  mem_dedupFirst _ _

/-- Transfer a filtered count over the nodup query-id list to a `Finset`
count over the query-id set. -/
theorem runQueryIds_filter_length (rows : List TrecRunRow)
    (p : String → Prop) [DecidablePred p] :
    ((runQueryIds rows).filter (fun q => decide (p q))).length
      = ((runQuerySet rows).filter p).card := by
  rw [← List.toFinset_card_of_nodup ((runQueryIds_nodup rows).filter _)]
  congr 1
  ext x
  simp only [List.toFinset_filter, Finset.mem_filter, List.mem_toFinset,
    mem_runQueryIds, decide_eq_true_eq, runQuerySet]

/-- Transfer a filtered sum over the nodup query-id list to a `Finset` sum
over the query-id set. -/
theorem runQueryIds_filter_sum (rows : List TrecRunRow)
    (p : String → Prop) [DecidablePred p] (f : String → ℕ) :
    (((runQueryIds rows).filter (fun q => decide (p q))).map f).sum
      = ∑ q ∈ (runQuerySet rows).filter p, f q := by
  rw [← List.sum_toFinset f ((runQueryIds_nodup rows).filter _)]
  congr 1
  ext x
  simp only [List.toFinset_filter, Finset.mem_filter, List.mem_toFinset,
    mem_runQueryIds, decide_eq_true_eq, runQuerySet]

/-! ## Claim C10 — duplicate-entry policies of the two qrels lookups -/

/-- A qrels collection with a duplicate `(query_id, doc_id)` pair whose last
listed grade is `0`. -/
def dupQrels : Qrels := ⟨[⟨"q1", "d1", 1⟩, ⟨"q1", "d1", 0⟩]⟩

/-- Claim C10, confirmed: for duplicate `(query_id, doc_id)` qrels entries,
`get_relevance_grades` resolves the grade last-wins (a matching entry
followed by no further match determines the grade), while
`get_relevant_docs` contains a doc id as soon as **any** entry for it has
relevance > 0; on `dupQrels` (last grade 0) the grade map yields 0 yet the
doc is in the relevant set — the two lookups apply inconsistent duplicate
policies. -/
theorem qrels_duplicate_policy_inconsistent :
    (∀ (q : Qrels) (qid d : String) (g : ℕ) (l₁ l₂ : List QrelEntry),
      q.entries = l₁ ++ ⟨qid, d, g⟩ :: l₂ →
      (∀ e ∈ l₂, ¬ (e.query_id = qid ∧ e.doc_id = d)) →
      q.get_relevance_grades qid d = some g)
    ∧ (∀ (q : Qrels) (qid d : String),
      d ∈ q.get_relevant_docs qid ↔
        ∃ e ∈ q.entries, e.query_id = qid ∧ e.doc_id = d ∧ 0 < e.relevance)
    ∧ (dupQrels.get_relevance_grades "q1" "d1" = some 0
       ∧ "d1" ∈ dupQrels.get_relevant_docs "q1") := by
  refine ⟨?_, ?_, by decide⟩
  · intro q qid d g l₁ l₂ hq h₂
    unfold Qrels.get_relevance_grades
    rw [hq, List.filter_append, List.filter_cons]
    have hmid : (decide ((⟨qid, d, g⟩ : QrelEntry).query_id = qid
        ∧ (⟨qid, d, g⟩ : QrelEntry).doc_id = d)) = true := by simp
    rw [hmid]
    have h₂' : l₂.filter
        (fun e => decide (e.query_id = qid ∧ e.doc_id = d)) = [] := by
      refine List.filter_eq_nil_iff.2 (fun e he => ?_)
      simpa using h₂ e he
    rw [h₂']
    simp [List.getLast?_concat]
  · intro q qid d
    simp only [Qrels.get_relevant_docs, List.mem_toFinset, List.mem_map,
      List.mem_filter, decide_eq_true_eq]
    constructor
    · rintro ⟨e, ⟨he, hqd⟩, rfl⟩
      exact ⟨e, he, hqd.1, rfl, hqd.2⟩
    · rintro ⟨e, he, h1, h2, h3⟩
      exact ⟨e, ⟨he, h1, h3⟩, h2⟩

/-- Witness for C10: the last-wins part applied at `dupQrels`. -/
theorem qrels_duplicate_policy_inconsistent_witness :
    dupQrels.get_relevance_grades "q1" "d1" = some 0 :=
  qrels_duplicate_policy_inconsistent.1 dupQrels "q1" "d1" 0
    [⟨"q1", "d1", 1⟩] [] rfl (by simp)

/-! ## Claim C4 — KPI status thresholds -/

/-- Claim C4, confirmed: for every metric of the fixed display list, `analyze_metrics`
emits an entry whose value is the primary lookup, falling back to the
`all.`-prefixed key and then to 0, and whose status is `unknown` when the
target is absent, `pass` when value ≥ target, `warn` when
target·0.9 ≤ value < target, `fail` when value < target·0.9. -/
theorem analyze_metrics_status_rule :
    ∀ (metrics targets : String → Option ℚ) (mn dn : String),
    (mn, dn) ∈ key_metrics →
    ∃ mv ∈ analyze_metrics metrics targets,
      mv.name = dn ∧
      mv.value = (metrics mn).getD ((metrics ("all." ++ mn)).getD 0) ∧
      mv.target = targets mn ∧
      ((targets mn = none ∧ mv.status = "unknown") ∨
       (∃ t, targets mn = some t ∧
         ((t ≤ mv.value ∧ mv.status = "pass") ∨
          (t * (9 / 10) ≤ mv.value ∧ mv.value < t ∧ mv.status = "warn") ∨
          (mv.value < t * (9 / 10) ∧ mv.status = "fail")))) := by
  intro metrics targets mn dn hmem
  refine ⟨_, List.mem_map.2 ⟨(mn, dn), hmem, rfl⟩, rfl, rfl, rfl, ?_⟩
  set v : ℚ := (metrics mn).getD ((metrics ("all." ++ mn)).getD 0) with hv
  cases ht : targets mn with
  | none => exact Or.inl ⟨rfl, by simp [ht]⟩
  | some t =>
    refine Or.inr ⟨t, rfl, ?_⟩
    by_cases h1 : t ≤ v
    · exact Or.inl ⟨h1, by simp [ht, ← hv, h1]⟩
    · by_cases h2 : t * (9 / 10) ≤ v
      · exact Or.inr (Or.inl ⟨h2, lt_of_not_le h1, by simp [ht, ← hv, h1, h2]⟩)
      · exact Or.inr (Or.inr ⟨lt_of_not_le h2, by simp [ht, ← hv, h1, h2]⟩)

/-- A concrete metrics lookup: nDCG@10 = 0.95. -/
def exMetrics : String → Option ℚ :=
  fun n => if n = "ndcg_cut_10" then some (95 / 100) else none

/-- A concrete targets lookup: nDCG@10 target 1. -/
def exTargets : String → Option ℚ :=
  fun n => if n = "ndcg_cut_10" then some 1 else none

/-- Witness for C4: value 0.95 against target 1 (the spec's `warn` case). -/
theorem analyze_metrics_status_rule_witness :
    ∃ mv ∈ analyze_metrics exMetrics exTargets,
      mv.name = "nDCG@10" ∧
      mv.value = (exMetrics "ndcg_cut_10").getD
        ((exMetrics ("all." ++ "ndcg_cut_10")).getD 0) ∧
      mv.target = exTargets "ndcg_cut_10" ∧
      ((exTargets "ndcg_cut_10" = none ∧ mv.status = "unknown") ∨
       (∃ t, exTargets "ndcg_cut_10" = some t ∧
         ((t ≤ mv.value ∧ mv.status = "pass") ∨
          (t * (9 / 10) ≤ mv.value ∧ mv.value < t ∧ mv.status = "warn") ∨
          (mv.value < t * (9 / 10) ∧ mv.status = "fail")))) :=
  analyze_metrics_status_rule exMetrics exTargets "ndcg_cut_10" "nDCG@10"
    (by simp [key_metrics])

/-! ## Claim C5 — report construction validates status counts -/

/-- Claim C5, confirmed: `EvaluationReport` construction fails whenever the provided
`status_counts` disagrees with the actual status distribution of the metric
list on any of the four statuses; consequently every successfully
constructed report carries counts that agree with that distribution on every
status. -/
theorem evaluation_report_counts_checked :
    ∀ (metrics : List MetricValue) (counts : String → Option ℕ)
      (overall : String),
    ((∃ s ∈ validStatuses, (counts s).getD 0 ≠ countStatus metrics s) →
      (mkEvaluationReport metrics counts overall).isOk = false)
    ∧ (∀ r, mkEvaluationReport metrics counts overall = .ok r →
        r.metrics = metrics ∧ r.status_counts = counts ∧
        ∀ s ∈ validStatuses, (r.status_counts s).getD 0 = countStatus r.metrics s) := by
  intro metrics counts overall
  constructor
  · rintro ⟨s, hs, hne⟩
    unfold mkEvaluationReport
    split
    · rfl
    · split
      · rename_i hall
        exact absurd (by simpa using List.all_eq_true.1 hall s hs) hne
      · rfl
  · intro r hr
    unfold mkEvaluationReport at hr
    split at hr
    · exact absurd hr (by simp)
    · split at hr
      · rename_i hall
        cases hr
        exact ⟨rfl, rfl, fun s hs => by simpa using List.all_eq_true.1 hall s hs⟩
      · exact absurd hr (by simp)

/-- One `pass` metric. -/
def exMetricList : List MetricValue := [⟨"nDCG@10", 1, some 1, "pass", true⟩]

/-- A counts map claiming zero of everything — inconsistent with
`exMetricList`. -/
def exBadCounts : String → Option ℕ := fun _ => some 0

/-- Witness for C5: the inconsistent construction is rejected. -/
theorem evaluation_report_counts_checked_witness :
    (mkEvaluationReport exMetricList exBadCounts "pass").isOk = false :=
  (evaluation_report_counts_checked exMetricList exBadCounts "pass").1
    ⟨"pass", by decide, by decide⟩

/-! ## Claim C9 — external-evaluator error policy -/

/-- Claim C9, confirmed: with both input files present, `evaluate` makes exactly one
subprocess call, bounded by the 120-second timeout: a timeout outcome yields
the timeout error (no retry, no fallback), a non-zero exit yields an error
carrying the tool's stderr, and the pytrec_eval fallback result is consulted
precisely when the outcome is a missing binary — for any other outcome the
result does not depend on the fallback at all, and the result depends on the
runner only through that single bounded call. -/
theorem trec_eval_evaluate_error_policy :
    ∀ (bp : String) (flags ms : List String) (qp rp : String)
      (runner : List String → ℕ → SubprocessOutcome)
      (parse : String → List (String × ℚ))
      (fb : Except String (List (String × ℚ))),
    subprocessTimeoutSeconds = 120 ∧
    ((runner (buildCmd bp flags ms qp rp) subprocessTimeoutSeconds = .timeoutExpired →
      TrecEvalWrapper.evaluate bp flags ms qp rp true true runner parse fb
        = .error .timedOut) ∧
     (∀ s, runner (buildCmd bp flags ms qp rp) subprocessTimeoutSeconds
          = .calledProcessError s →
      TrecEvalWrapper.evaluate bp flags ms qp rp true true runner parse fb
        = .error (.trecEvalFailed s)) ∧
     (∀ m, runner (buildCmd bp flags ms qp rp) subprocessTimeoutSeconds
          = .binaryNotFound → fb = .ok m →
      TrecEvalWrapper.evaluate bp flags ms qp rp true true runner parse fb
        = .ok m) ∧
     (∀ e, runner (buildCmd bp flags ms qp rp) subprocessTimeoutSeconds
          = .binaryNotFound → fb = .error e →
      TrecEvalWrapper.evaluate bp flags ms qp rp true true runner parse fb
        = .error (.fallbackError e)) ∧
     (∀ fb₂, runner (buildCmd bp flags ms qp rp) subprocessTimeoutSeconds
          ≠ .binaryNotFound →
      TrecEvalWrapper.evaluate bp flags ms qp rp true true runner parse fb
        = TrecEvalWrapper.evaluate bp flags ms qp rp true true runner parse fb₂) ∧
     (∀ runner₂, runner (buildCmd bp flags ms qp rp) subprocessTimeoutSeconds
          = runner₂ (buildCmd bp flags ms qp rp) subprocessTimeoutSeconds →
      TrecEvalWrapper.evaluate bp flags ms qp rp true true runner parse fb
        = TrecEvalWrapper.evaluate bp flags ms qp rp true true runner₂ parse fb)) := by
  intro bp flags ms qp rp runner parse fb
  have key : ∀ (rn : List String → ℕ → SubprocessOutcome)
      (fb' : Except String (List (String × ℚ))),
      TrecEvalWrapper.evaluate bp flags ms qp rp true true rn parse fb'
        = match rn (buildCmd bp flags ms qp rp) subprocessTimeoutSeconds with
          | .success stdout => .ok (parse stdout)
          | .timeoutExpired => .error .timedOut
          | .calledProcessError stderr => .error (.trecEvalFailed stderr)
          | .binaryNotFound =>
            match fb' with
            | .ok m => .ok m
            | .error e => .error (.fallbackError e) := fun _ _ => rfl
  refine ⟨rfl, ?_, ?_, ?_, ?_, ?_, ?_⟩
  · intro h; rw [key, h]
  · intro s h; rw [key, h]
  · intro m h hfb; rw [key, h, hfb]
  · intro e h hfb; rw [key, h, hfb]
  · intro fb₂ h
    rw [key, key]
    cases houtcome : runner (buildCmd bp flags ms qp rp) subprocessTimeoutSeconds
    · rfl
    · rfl
    · rfl
    · exact absurd houtcome h
  · intro runner₂ h; rw [key, key, h]

/-- Witness for C9: a timing-out subprocess outcome yields the timeout
error. -/
theorem trec_eval_evaluate_error_policy_witness :
    TrecEvalWrapper.evaluate "trec_eval" [] ["map"] "q.txt" "r.txt" true true
      (fun _ _ => .timeoutExpired) (fun _ => []) (.ok [("map", 1)])
      = .error .timedOut :=
  (trec_eval_evaluate_error_policy "trec_eval" [] ["map"] "q.txt" "r.txt"
    (fun _ _ => .timeoutExpired) (fun _ => []) (.ok [("map", 1)])).2.1 rfl

/-! ## Claim C1 — hitrate@10 denominator -/

/-- Metadata reused by the concrete examples. -/
def exMeta : RunMetadata :=
  { run_id := "r", config_snapshot := [], topic_source := "t",
    retrieval_mode := "unknown", top_k := 10, num_queries := 2 }

/-- Qrels judging only `q1` (relevant doc `d5`). -/
def hitCexQrels : Qrels := ⟨[⟨"q1", "d5", 1⟩]⟩

/-- A run retrieving `d5` for `q1` and one unjudged query `q2`. -/
def hitCexRun : TrecRun :=
  { rows := [⟨"q1", "Q0", "d5", 1, 9 / 10, "r"⟩, ⟨"q2", "Q0", "dX", 1, 1 / 2, "r"⟩]
    metadata := exMeta }

/-- Claim C1, counterexample: in the claim's own scenario — `q1` with its
relevant doc `d5` in the top 10, a second run query `q2` with no judgments —
`compute_hitrate_10` returns 1/2, not the claimed 1: the unjudged query is
counted in the denominator. -/
theorem compute_hitrate_10_counts_unjudged_queries :
    hitCexQrels.get_relevant_docs "q2" = ∅ ∧
    "d5" ∈ top10Docs (rowsFor hitCexRun.rows "q1") ∧
    "d5" ∈ hitCexQrels.get_relevant_docs "q1" ∧
    compute_hitrate_10 hitCexRun hitCexQrels = 1 / 2 ∧
    (1 : ℚ) / 2 ≠ 1 := by
  refine ⟨by decide, by decide, by decide, ?_, by norm_num⟩
  have hnum : (List.filter (fun qid =>
      decide (hitCexQrels.get_relevant_docs qid ≠ ∅ ∧
        top10Docs (rowsFor hitCexRun.rows qid) ∩ hitCexQrels.get_relevant_docs qid ≠ ∅))
      (runQueryIds hitCexRun.rows)).length = 1 := by decide
  have hden : (runQueryIds hitCexRun.rows).length = 2 := by decide
  unfold compute_hitrate_10
  dsimp only
  rw [if_neg (by decide), if_pos (by rw [hden]; norm_num), hnum, hden]
  norm_num

/-- Claim C1, amended: `compute_hitrate_10` returns
(#queries of the run whose top-10 documents meet a nonempty
judged-relevant set) / (#distinct query ids of the run): queries with zero
judged-relevant documents are excluded from the numerator but **counted in
the denominator**; the result is 0 when the run has no rows. -/
theorem compute_hitrate_10_closed_form :
    ∀ (run : TrecRun) (qrels : Qrels),
    (run.rows = [] → compute_hitrate_10 run qrels = 0) ∧
    (run.rows ≠ [] →
      compute_hitrate_10 run qrels =
        (((runQuerySet run.rows).filter (fun qid =>
            qrels.get_relevant_docs qid ≠ ∅ ∧
            top10Docs (rowsFor run.rows qid) ∩ qrels.get_relevant_docs qid ≠ ∅)).card : ℚ)
          / ((runQuerySet run.rows).card : ℚ)) := by
  intro run qrels
  constructor
  · intro h
    simp [compute_hitrate_10, h]
  · intro h
    obtain ⟨r, hr⟩ : ∃ r, r ∈ run.rows := by
      cases hrows : run.rows with
      | nil => exact absurd hrows h
      | cons a l => exact ⟨a, hrows ▸ List.mem_cons_self a l⟩
    have hqmem : r.query_id ∈ runQueryIds run.rows :=
      (mem_runQueryIds _ _).2 (List.mem_map.2 ⟨r, hr, rfl⟩)
    have hpos : 0 < (runQueryIds run.rows).length :=
      List.length_pos.2 (List.ne_nil_of_mem hqmem)
    unfold compute_hitrate_10
    rw [if_neg h]
    dsimp only
    rw [if_pos hpos]
    rw [runQueryIds_filter_length run.rows (fun qid =>
      qrels.get_relevant_docs qid ≠ ∅ ∧
      top10Docs (rowsFor run.rows qid) ∩ qrels.get_relevant_docs qid ≠ ∅)]
    rw [runQueryIds_length]

/-- Witness for C1 (amended): the nonempty-run case at the concrete
counterexample run. -/
theorem compute_hitrate_10_closed_form_witness :
    compute_hitrate_10 hitCexRun hitCexQrels =
      (((runQuerySet hitCexRun.rows).filter (fun qid =>
          hitCexQrels.get_relevant_docs qid ≠ ∅ ∧
          top10Docs (rowsFor hitCexRun.rows qid) ∩ hitCexQrels.get_relevant_docs qid ≠ ∅)).card : ℚ)
        / ((runQuerySet hitCexRun.rows).card : ℚ) :=
  (compute_hitrate_10_closed_form hitCexRun hitCexQrels).2 (by decide)

/-! ## Claim C7 — coverage statistics classification -/

/-- A generic evaluation of the coverage fold. -/
theorem coverage_foldl (p : String → Prop) [DecidablePred p] (f g : String → ℕ) :
    ∀ (l : List String) (s : CoverageStats),
    l.foldl (fun stats qid =>
        if p qid then
          { stats with
            queries_with_judgements := stats.queries_with_judgements + 1
            total_relevant_docs := stats.total_relevant_docs + f qid
            retrieved_relevant_docs := stats.retrieved_relevant_docs + g qid }
        else
          { stats with
            queries_without_judgements := stats.queries_without_judgements + 1 }) s
      = { queries_with_judgements :=
            s.queries_with_judgements + (l.filter (fun q => decide (p q))).length
          queries_without_judgements :=
            s.queries_without_judgements + (l.filter (fun q => !(decide (p q)))).length
          total_relevant_docs :=
            s.total_relevant_docs + ((l.filter (fun q => decide (p q))).map f).sum
          retrieved_relevant_docs :=
            s.retrieved_relevant_docs + ((l.filter (fun q => decide (p q))).map g).sum } := by
  intro l
  induction l with
  | nil => intro s; simp
  | cons a as ih =>
    intro s
    by_cases h : p a
    · rw [List.foldl_cons, if_pos h, ih]
      have hd : decide (p a) = true := decide_eq_true h
      simp [List.filter_cons, hd, CoverageStats.mk.injEq]
      omega
    · rw [List.foldl_cons, if_neg h, ih]
      have hd : decide (p a) = false := decide_eq_false h
      simp [List.filter_cons, hd, CoverageStats.mk.injEq]
      omega

/-- Claim C7, amended: `compute_coverage_stats` classifies a distinct run
query into `queries_with_judgements` iff it has at least one
judged-**relevant** (relevance > 0) document — a query whose only judgments
have relevance 0 lands in `queries_without_judgements`; `total_relevant_docs`
sums the relevant-set sizes and `retrieved_relevant_docs` the retrieved∩relevant
intersection sizes (not rank-weighted) over those queries. -/
theorem compute_coverage_stats_closed_form :
    ∀ (run : TrecRun) (qrels : Qrels),
    compute_coverage_stats run qrels =
      { queries_with_judgements :=
          ((runQuerySet run.rows).filter
            (fun qid => qrels.get_relevant_docs qid ≠ ∅)).card
        queries_without_judgements :=
          ((runQuerySet run.rows).filter
            (fun qid => qrels.get_relevant_docs qid = ∅)).card
        total_relevant_docs :=
          ∑ qid ∈ (runQuerySet run.rows).filter
              (fun qid => qrels.get_relevant_docs qid ≠ ∅),
            (qrels.get_relevant_docs qid).card
        retrieved_relevant_docs :=
          ∑ qid ∈ (runQuerySet run.rows).filter
              (fun qid => qrels.get_relevant_docs qid ≠ ∅),
            (retrievedDocs (rowsFor run.rows qid) ∩ qrels.get_relevant_docs qid).card } := by
  intro run qrels
  by_cases h : run.rows = []
  · simp [compute_coverage_stats, h, runQuerySet]
  · unfold compute_coverage_stats
    rw [if_neg h]
    dsimp only
    rw [coverage_foldl (fun qid => qrels.get_relevant_docs qid ≠ ∅)
      (fun qid => (qrels.get_relevant_docs qid).card)
      (fun qid => (retrievedDocs (rowsFor run.rows qid) ∩ qrels.get_relevant_docs qid).card)
      (runQueryIds run.rows) ⟨0, 0, 0, 0⟩]
    simp only [CoverageStats.mk.injEq]
    refine ⟨?_, ?_, ?_, ?_⟩
    · rw [Nat.zero_add, runQueryIds_filter_length]
    · rw [Nat.zero_add]
      have : (fun q => !(decide (qrels.get_relevant_docs q ≠ ∅)))
          = (fun q => decide (qrels.get_relevant_docs q = ∅)) := by
        funext q
        by_cases hq : qrels.get_relevant_docs q = ∅ <;> simp [hq]
      rw [this, runQueryIds_filter_length]
    · rw [Nat.zero_add, runQueryIds_filter_sum]
    · rw [Nat.zero_add, runQueryIds_filter_sum]

/-- Qrels whose only judgment for `q1` has relevance 0. -/
def covCexQrels : Qrels := ⟨[⟨"q1", "d1", 0⟩]⟩

/-- A run retrieving one document for `q1`. -/
def covCexRun : TrecRun := { rows := [⟨"q1", "Q0", "d1", 1, 1, "r"⟩], metadata := exMeta }

/-- Claim C7, counterexample: `q1` has a judgment in the qrels (grade 0), yet
`compute_coverage_stats` counts it in `queries_without_judgements`, not in
`queries_with_judgements` as the claim requires. -/
theorem compute_coverage_stats_ignores_zero_grade_judgments :
    (∃ e ∈ covCexQrels.entries, e.query_id = "q1") ∧
    runQueryIds covCexRun.rows = ["q1"] ∧
    (compute_coverage_stats covCexRun covCexQrels).queries_with_judgements = 0 ∧
    (compute_coverage_stats covCexRun covCexQrels).queries_without_judgements = 1 := by
  refine ⟨⟨⟨"q1", "d1", 0⟩, by decide, rfl⟩, by decide, by decide, by decide⟩

/-! ## Claim C3 — score-monotonicity validation -/

theorem mem_rowsFor (rows : List TrecRunRow) (qid : String) (r : TrecRunRow) :
    r ∈ rowsFor rows qid ↔ r ∈ rows ∧ r.query_id = qid := by
  simp [rowsFor, List.mem_filter]

/-- Every first-pass error is a `tooManyResults`. -/
theorem countErrors_shape (rows : List TrecRunRow) (e : FormatError)
    (he : e ∈ countErrors rows) : ∃ qid c, e = .tooManyResults qid c := by
  simp only [countErrors, List.mem_filterMap] at he
  obtain ⟨qid, _, hf⟩ := he
  split at hf
  · exact ⟨qid, _, (Option.some_inj.1 hf).symm⟩
  · exact absurd hf (by simp)

/-- Every second-pass error is a `duplicateRank`. -/
theorem dupRankErrorsAux_shape :
    ∀ (l : List TrecRunRow) (seen : String → Finset ℤ) (e : FormatError),
    e ∈ dupRankErrorsAux seen l → ∃ qid r, e = .duplicateRank qid r := by
  intro l
  induction l with
  | nil => intro seen e he; exact absurd he (by simp [dupRankErrorsAux])
  | cons row rest ih =>
    intro seen e he
    dsimp only [dupRankErrorsAux] at he
    split at he
    · rcases List.mem_cons.1 he with h | h
      · exact ⟨row.query_id, row.rank, h⟩
      · exact ih _ e h
    · exact ih _ e he

/-- Membership of an increasing-scores error in one query group's errors. -/
theorem increasing_mem_groupErrors (qid qid' : String) (r1 : ℤ) (s1 : ℚ)
    (r2 : ℤ) (s2 : ℚ) (rows : List TrecRunRow) :
    FormatError.increasingScores qid' r1 s1 r2 s2 ∈ groupErrors qid rows ↔
      qid' = qid ∧
      ∃ ab ∈ (sortedByRank rows).zip (sortedByRank rows).tail,
        ab.1.rank = r1 ∧ ab.1.score = s1 ∧ ab.2.rank = r2 ∧ ab.2.score = s2 ∧
        s1 < s2 := by
  unfold groupErrors
  simp only [List.mem_append, List.mem_filterMap]
  constructor
  · rintro ((h | h) | ⟨ab, hab, hf⟩)
    · revert h; split
      · intro h; exact absurd (List.mem_singleton.1 h) (by simp)
      · intro h; exact absurd h (List.not_mem_nil _)
    · revert h; split
      · split
        · intro h; exact absurd (List.mem_singleton.1 h) (by simp)
        · intro h; exact absurd h (List.not_mem_nil _)
      · intro h; exact absurd h (List.not_mem_nil _)
    · revert hf; split
      · intro hf
        rename_i hlt
        simp only [Option.some.injEq, FormatError.increasingScores.injEq] at hf
        obtain ⟨hq, h1, h2, h3, h4⟩ := hf
        exact ⟨hq.symm, ab, hab, h1, h2, h3, h4, h2 ▸ h4 ▸ hlt⟩
      · intro hf; exact absurd hf (by simp)
  · rintro ⟨rfl, ab, hab, h1, h2, h3, h4, hlt⟩
    subst h1; subst h2; subst h3; subst h4
    exact Or.inr ⟨ab, hab, by rw [if_pos hlt]⟩

/-- Claim C3, amended: the eval CLI's `validate_format` reports an
increasing-scores error, identifying the two ranks and the two scores, for a
rank-adjacent pair of a query's rank-sorted rows iff the later-ranked score
**strictly** exceeds the earlier-ranked one — there is no epsilon tolerance
there, so sub-epsilon increases are also errors (exact ties are not). The
epsilon ≈ 1e-9 tolerance lives in the shared package's model validator
`validate_monotonicity`, which accepts a row list iff every rank-adjacent
pair of every topic has distinct ranks and a score increase of at most
`sharedEps` — and it raises instead of returning error strings. -/
theorem validate_format_monotonicity_characterization :
    (∀ (run : TrecRun) (qid : String) (r1 : ℤ) (s1 : ℚ) (r2 : ℤ) (s2 : ℚ),
      FormatError.increasingScores qid r1 s1 r2 s2 ∈ run.validate_format ↔
        ∃ ab ∈ (sortedByRank (rowsFor run.rows qid)).zip
            (sortedByRank (rowsFor run.rows qid)).tail,
          ab.1.rank = r1 ∧ ab.1.score = s1 ∧ ab.2.rank = r2 ∧ ab.2.score = s2 ∧
          s1 < s2)
    ∧ (∀ rows : List SharedTrecRunRow,
      (sharedValidateMonotonicity rows).isOk = true ↔
        ∀ tid : String,
          ∀ ab ∈ (sharedSortedByRank (rows.filter (fun r => r.topic_id = tid))).zip
              (sharedSortedByRank (rows.filter (fun r => r.topic_id = tid))).tail,
            ab.1.rank ≠ ab.2.rank ∧ ab.2.score ≤ ab.1.score + sharedEps) := by
  constructor
  · intro run qid r1 s1 r2 s2
    unfold TrecRun.validate_format
    simp only [List.mem_append, List.mem_flatMap]
    constructor
    · rintro ((h | h) | ⟨qid', hq', hmem⟩)
      · obtain ⟨_, _, he⟩ := countErrors_shape run.rows _ h
        exact absurd he (by simp)
      · obtain ⟨_, _, he⟩ := dupRankErrorsAux_shape run.rows _ _ h
        exact absurd he (by simp)
      · obtain ⟨rfl, hrest⟩ := (increasing_mem_groupErrors qid' qid r1 s1 r2 s2 _).1 hmem
        exact hrest
    · rintro ⟨ab, hab, h1, h2, h3, h4, hlt⟩
      obtain ⟨a, b⟩ := ab
      have hmemrow : a ∈ rowsFor run.rows qid :=
        (mem_sortBy _ _ _).1 (List.of_mem_zip hab).1
      have hqid : qid ∈ runQueryIds run.rows :=
        (mem_runQueryIds _ _).2 (List.mem_map.2
          ⟨a, ((mem_rowsFor _ _ _).1 hmemrow).1, ((mem_rowsFor _ _ _).1 hmemrow).2⟩)
      exact Or.inr ⟨qid, hqid,
        (increasing_mem_groupErrors qid qid r1 s1 r2 s2 _).2
          ⟨rfl, ⟨a, b⟩, hab, h1, h2, h3, h4, hlt⟩⟩
  · intro rows
    have hisOk : (sharedValidateMonotonicity rows).isOk = true ↔
        (dedupFirst (rows.map (fun r => r.topic_id))).flatMap
          (fun tid => sharedTopicViolations tid
            (rows.filter (fun r => r.topic_id = tid))) = [] := by
      unfold sharedValidateMonotonicity
      split
      · rename_i heq; simp [Except.isOk, Except.toBool, heq]
      · rename_i heq; simp [Except.isOk, Except.toBool, heq]
    have htopic : ∀ (tid : String) (rs : List SharedTrecRunRow),
        sharedTopicViolations tid rs = [] ↔
        ∀ ab ∈ (sharedSortedByRank rs).zip (sharedSortedByRank rs).tail,
          ab.1.rank ≠ ab.2.rank ∧ ab.2.score ≤ ab.1.score + sharedEps := by
      intro tid rs
      unfold sharedTopicViolations
      dsimp only
      rw [List.append_eq_nil]
      rw [List.filterMap_eq_nil_iff, List.filterMap_eq_nil_iff]
      constructor
      · rintro ⟨hdup, hinc⟩ ab hab
        constructor
        · have habm : ab ∈ List.map Prod.snd (((sharedSortedByRank rs).zip
              (sharedSortedByRank rs).tail).enumFrom 1) := by
            rw [List.enumFrom_map_snd]; exact hab
          obtain ⟨iab, hmem, hsnd⟩ := List.mem_map.1 habm
          have hnone := hdup iab hmem
          rw [hsnd] at hnone
          revert hnone; split
          · intro h; exact absurd h (by simp)
          · intro _; assumption
        · have := hinc ab hab
          revert this; split
          · intro h; exact absurd h (by simp)
          · intro _; exact le_of_not_lt (by assumption)
      · intro h
        constructor
        · intro iab hiab
          have h2 : iab.2 ∈ (sharedSortedByRank rs).zip (sharedSortedByRank rs).tail := by
            have : iab.2 ∈ List.map Prod.snd (((sharedSortedByRank rs).zip
                (sharedSortedByRank rs).tail).enumFrom 1) :=
              List.mem_map.2 ⟨iab, hiab, rfl⟩
            rwa [List.enumFrom_map_snd] at this
          rw [if_neg (h iab.2 h2).1]
        · intro ab hab
          rw [if_neg (not_lt.2 (h ab hab).2)]
    rw [hisOk, List.flatMap_eq_nil_iff]
    constructor
    · intro h tid
      by_cases htid : tid ∈ dedupFirst (rows.map (fun r => r.topic_id))
      · exact (htopic tid _).1 (h tid htid)
      · have hfil : rows.filter (fun r => r.topic_id = tid) = [] := by
          refine List.filter_eq_nil_iff.2 (fun r hr hcontra => ?_)
          exact htid ((mem_dedupFirst _ _).2
            (List.mem_map.2 ⟨r, hr, by simpa using hcontra⟩))
        rw [hfil]
        intro ab hab
        exact absurd hab (by simp [sharedSortedByRank, sortBy])
    · intro h tid _
      exact (htopic tid _).2 (h tid)

/-- The rational 0.5, in normalized constructor form. -/
def qA : ℚ := ⟨1, 2, by norm_num, by norm_num⟩

/-- The rational 0.5 + 10⁻¹², in normalized constructor form: a sub-epsilon increase
over `qA` (the excess is far below the 1e-9 tolerance). -/
def qB : ℚ := ⟨500000000001, 1000000000000, by norm_num, by norm_num⟩

/-- A run whose second-ranked row exceeds the first by 10⁻¹². -/
def monoCexRun : TrecRun :=
  { rows := [⟨"q1", "Q0", "d1", 1, qA, "r"⟩, ⟨"q1", "Q0", "d2", 2, qB, "r"⟩]
    metadata := exMeta }

/-- Claim C3, counterexample: the adjacent scores differ by 10⁻¹² — within
the claimed epsilon ≈ 1e-9 tolerance, so per the claim no error should be
reported — yet `validate_format` reports the increasing-scores error:
its comparison is strict, with no tolerance. -/
theorem validate_format_sub_epsilon_counterexample :
    qA < qB ∧ qB ≤ qA + sharedEps ∧
    FormatError.increasingScores "q1" 1 qA 2 qB ∈ monoCexRun.validate_format := by
  refine ⟨by decide, ?_, by decide⟩
  have ha : qA = 1 / 2 := by
    norm_num [qA, Rat.mk'_eq_divInt, Rat.divInt_eq_div]
  have hb : qB = 500000000001 / 1000000000000 := by
    norm_num [qB, Rat.mk'_eq_divInt, Rat.divInt_eq_div]
  rw [ha, hb, sharedEps]
  norm_num

/-! ## Claim C6 — RunBuilder rank assignment -/

/-- The rows one `(query_id, QueryResult)` pair contributes. -/
def builderBlock (run_id : String) (qid : String) (qr : QueryResult) :
    List TrecRunRow :=
  ((qr.segments.take 100).enumFrom 1).map (fun rs =>
    { query_id := qid
      doc_id := rs.2.segment_id
      rank := (rs.1 : ℤ)
      score := rs.2.score
      run_id := run_id })

theorem build_trec_run_rows_eq (responses : List (String × QueryResult))
    (run_id : String) (metadata : RunMetadata) :
    (build_trec_run responses run_id metadata).rows
      = responses.flatMap (fun p => builderBlock run_id p.1 p.2) := rfl

theorem builderBlock_query_id (run_id qid : String) (qr : QueryResult)
    (row : TrecRunRow) (h : row ∈ builderBlock run_id qid qr) :
    row.query_id = qid := by
  obtain ⟨rs, _, rfl⟩ := List.mem_map.1 h
  rfl

/-- Rows of foreign queries contribute nothing to a query's filtered rows. -/
theorem filter_flatMap_notmem (run_id : String) (qid : String)
    (responses : List (String × QueryResult))
    (h : qid ∉ responses.map Prod.fst) :
    (responses.flatMap (fun p => builderBlock run_id p.1 p.2)).filter
      (fun row => row.query_id = qid) = [] := by
  refine List.filter_eq_nil_iff.2 (fun row hrow => ?_)
  obtain ⟨p, hp, hrowp⟩ := List.mem_flatMap.1 hrow
  have hq : row.query_id = p.1 := builderBlock_query_id _ _ _ _ hrowp
  have hne : p.1 ≠ qid := fun hcontra =>
    h (List.mem_map.2 ⟨p, hp, hcontra⟩)
  simp [hq, hne]

/-- With distinct keys, filtering the built rows by a present query id
recovers exactly that query's block. -/
theorem filter_build_trec_run (responses : List (String × QueryResult))
    (run_id : String) (qid : String) (qr : QueryResult) :
    ∀ (_ : (responses.map Prod.fst).Nodup) (_ : (qid, qr) ∈ responses),
    (responses.flatMap (fun p => builderBlock run_id p.1 p.2)).filter
      (fun row => row.query_id = qid) = builderBlock run_id qid qr := by
  induction responses with
  | nil => intro _ hmem; exact absurd hmem (List.not_mem_nil _)
  | cons p rest ih =>
    intro hnd hmem
    obtain ⟨k, q'⟩ := p
    rw [List.map_cons] at hnd
    obtain ⟨hhead, htail⟩ := List.nodup_cons.1 hnd
    rw [List.flatMap_cons, List.filter_append]
    rcases List.mem_cons.1 hmem with heq | hmem'
    · injection heq with h1 h2
      subst h1; subst h2
      rw [filter_flatMap_notmem run_id qid rest hhead]
      rw [List.filter_eq_self.2 (fun row hrow => by
        simp [builderBlock_query_id _ _ _ _ hrow])]
      exact List.append_nil _
    · have hqid_in : qid ∈ rest.map Prod.fst :=
        List.mem_map.2 ⟨(qid, qr), hmem', rfl⟩
      have hne : k ≠ qid := fun hc => hhead (hc ▸ hqid_in)
      have hblock : (builderBlock run_id k q').filter
          (fun row => row.query_id = qid) = [] :=
        List.filter_eq_nil_iff.2 (fun row hrow => by
          simp [builderBlock_query_id _ _ _ _ hrow, hne])
      rw [hblock, ih htail hmem', List.nil_append]

/-- Claim C6, confirmed: for well-formed input (distinct response keys, as in a Python
dict), each query's rows in the built run are exactly one row per segment
among the first 100 of that query's list, in order: rank is the 1-based
position, doc id and score are copied verbatim, and an empty segment list
contributes zero rows. (`build_trec_run` is a pure function of its
arguments; the metadata is attached untouched.) -/
theorem build_trec_run_per_query :
    ∀ (responses : List (String × QueryResult)) (run_id : String)
      (metadata : RunMetadata) (qid : String) (qr : QueryResult),
    (responses.map Prod.fst).Nodup → (qid, qr) ∈ responses →
    (((build_trec_run responses run_id metadata).rows.filter
        (fun row => row.query_id = qid)).length = min qr.segments.length 100
     ∧ (∀ i : ℕ, i < 100 →
        ((build_trec_run responses run_id metadata).rows.filter
          (fun row => row.query_id = qid))[i]? =
        (qr.segments[i]?).map (fun seg =>
          { query_id := qid, q0 := "Q0", doc_id := seg.segment_id,
            rank := (i : ℤ) + 1, score := seg.score, run_id := run_id }))
     ∧ (qr.segments = [] →
        (build_trec_run responses run_id metadata).rows.filter
          (fun row => row.query_id = qid) = [])
     ∧ (build_trec_run responses run_id metadata).metadata = metadata) := by
  intro responses run_id metadata qid qr hnd hmem
  have hfil : (build_trec_run responses run_id metadata).rows.filter
      (fun row => row.query_id = qid) = builderBlock run_id qid qr := by
    rw [build_trec_run_rows_eq]
    exact filter_build_trec_run responses run_id qid qr hnd hmem
  refine ⟨?_, ?_, ?_, rfl⟩
  · rw [hfil]
    simp only [builderBlock, List.length_map, List.enumFrom_length,
      List.length_take]
    exact Nat.min_comm _ _
  · intro i hi
    rw [hfil]
    simp only [builderBlock, List.getElem?_map, List.getElem?_enumFrom,
      List.getElem?_take, if_pos hi, Option.map_map]
    cases qr.segments[i]? with
    | none => rfl
    | some seg =>
      show some _ = some _
      congr 1
      show (⟨qid, "Q0", seg.segment_id, ((1 + i : ℕ) : ℤ), seg.score, run_id⟩
        : TrecRunRow) = ⟨qid, "Q0", seg.segment_id, (i : ℤ) + 1, seg.score, run_id⟩
      have : ((1 + i : ℕ) : ℤ) = (i : ℤ) + 1 := by push_cast; ring
      rw [this]
  · intro hempty
    rw [hfil]
    simp [builderBlock, hempty]

/-- The spec's concrete rank-assignment example: segments
`[(d1, 0.9), (d2, 0.5), (d3, 0.5)]`. -/
def exSegments : QueryResult :=
  ⟨[⟨"d1", 9 / 10⟩, ⟨"d2", 1 / 2⟩, ⟨"d3", 1 / 2⟩]⟩

/-- Witness for C6: ranks 1,2,3 in input order, ties preserved. -/
theorem build_trec_run_per_query_witness :
    ((build_trec_run [("q1", exSegments)] "r" exMeta).rows.filter
      (fun row => row.query_id = "q1")).length = min 3 100 ∧
    ((build_trec_run [("q1", exSegments)] "r" exMeta).rows.filter
      (fun row => row.query_id = "q1"))[1]? =
      (exSegments.segments[1]?).map (fun seg =>
        { query_id := "q1", q0 := "Q0", doc_id := seg.segment_id,
          rank := (1 : ℤ) + 1, score := seg.score, run_id := "r" }) :=
  have h := build_trec_run_per_query [("q1", exSegments)] "r" exMeta "q1"
    exSegments (by simp) (by simp)
  ⟨h.1, h.2.1 1 (by norm_num)⟩

/-! ## Claim C8 — evaluator-output parsing (modelled: see the note at
`parse_output` on the `IndentationError` in the source method) -/

/-- Inversion of one output line's contribution. -/
theorem parseOutputLine_eq_some (line : List Char) (n : String) (v : ℚ) :
    parseOutputLine line = some (n, v) ↔
    ∃ f0 f1 f2 : List Char, splitMax2 line = [f0, f1, f2] ∧
      parseFloat (pyStrip f2) = some v ∧
      String.mk f1 = "all" ∧ String.mk f0 = n := by
  unfold parseOutputLine
  constructor
  · intro h
    split at h
    · rename_i f0 f1 f2 hsplit
      split at h
      · rename_i value hpf
        split at h
        · rename_i hall
          obtain ⟨h1, h2⟩ := Prod.mk.injEq _ _ _ _ ▸ Option.some_inj.1 h
          exact ⟨f0, f1, f2, hsplit, h2 ▸ hpf, hall, h1⟩
        · exact absurd h (by simp)
      · exact absurd h (by simp)
    · exact absurd h (by simp)
  · rintro ⟨f0, f1, f2, hsplit, hpf, hall, hname⟩
    rw [hsplit]
    dsimp only
    rw [hpf]
    dsimp only
    rw [if_pos hall, hname]

/-- Claim C8 (against the modelled intent): the output parser returns a
mapping containing exactly the `metric_name → value` pairs of lines whose
second whitespace-separated field is the literal `all`. Soundness: a parsed
value comes from such a line. Absence: if no line both names the metric and
has `all` as its second field, the metric is absent. Skipping: a line whose
value field does not parse as a float is skipped without affecting the rest
of the parse. Retention: a line whose fields are the metric name, `all`, and
a parseable value — with no later line contributing a pair for the same
metric — is retained, mapping the metric to that value. -/
theorem parse_output_retains_all_lines :
    (∀ (lines : List (List Char)) (name : String) (v : ℚ),
      parse_output lines name = some v →
      ∃ line ∈ lines, ∃ f0 f1 f2 : List Char,
        splitMax2 line = [f0, f1, f2] ∧ String.mk f1 = "all" ∧
        String.mk f0 = name ∧ parseFloat (pyStrip f2) = some v)
    ∧ (∀ (lines : List (List Char)) (name : String),
      (∀ line ∈ lines, parseOutputLine line = none ∨
        ∀ f0 f1 f2 : List Char, splitMax2 line = [f0, f1, f2] →
          String.mk f0 ≠ name ∨ String.mk f1 ≠ "all") →
      parse_output lines name = none)
    ∧ (∀ (l₁ l₂ : List (List Char)) (bad : List Char) (name : String),
      parseOutputLine bad = none →
      parse_output (l₁ ++ bad :: l₂) name = parse_output (l₁ ++ l₂) name)
    ∧ (∀ (l₁ l₂ : List (List Char)) (line : List Char) (name : String) (v : ℚ)
        (f0 f1 f2 : List Char),
      splitMax2 line = [f0, f1, f2] → String.mk f0 = name →
      String.mk f1 = "all" → parseFloat (pyStrip f2) = some v →
      (∀ line' ∈ l₂, ∀ v' : ℚ, parseOutputLine line' ≠ some (name, v')) →
      parse_output (l₁ ++ line :: l₂) name = some v) := by
  refine ⟨?_, ?_, ?_, ?_⟩
  · intro lines name v h
    unfold parse_output at h
    cases hlast : ((lines.filterMap parseOutputLine).filter
        (fun p => p.1 = name)).getLast? with
    | none => rw [hlast] at h; exact absurd h (by simp)
    | some p =>
      rw [hlast] at h
      have hv : p.2 = v := Option.some_inj.1 h
      have hpmem : p ∈ (lines.filterMap parseOutputLine).filter
          (fun p => p.1 = name) := List.mem_of_mem_getLast? hlast
      obtain ⟨hpfm, hpname⟩ := List.mem_filter.1 hpmem
      obtain ⟨line, hline, hsome⟩ := List.mem_filterMap.1 hpfm
      have hpn : p.1 = name := by simpa using hpname
      obtain ⟨f0, f1, f2, hsplit, hpf, hall, hname⟩ :=
        (parseOutputLine_eq_some line p.1 p.2).1 hsome
      exact ⟨line, hline, f0, f1, f2, hsplit, hall, hpn ▸ hname, hv ▸ hpf⟩
  · intro lines name h
    unfold parse_output
    have hnil : (lines.filterMap parseOutputLine).filter
        (fun p => p.1 = name) = [] := by
      refine List.filter_eq_nil_iff.2 (fun p hp => ?_)
      obtain ⟨line, hline, hsome⟩ := List.mem_filterMap.1 hp
      obtain ⟨f0, f1, f2, hsplit, _, hall, hname⟩ :=
        (parseOutputLine_eq_some line p.1 p.2).1 hsome
      rcases h line hline with hnone | hother
      · rw [hnone] at hsome; exact absurd hsome (by simp)
      · rcases hother f0 f1 f2 hsplit with hne | hne
        · simp [hname ▸ hne]
        · exact absurd hall hne
    rw [hnil]
    rfl
  · intro l₁ l₂ bad name hbad
    unfold parse_output
    rw [List.filterMap_append, List.filterMap_cons, hbad,
      List.filterMap_append]
  · intro l₁ l₂ line name v f0 f1 f2 hsplit hname hall hpf hlater
    have hline : parseOutputLine line = some (name, v) :=
      (parseOutputLine_eq_some line name v).2 ⟨f0, f1, f2, hsplit, hpf, hall, hname⟩
    have htail : (l₂.filterMap parseOutputLine).filter
        (fun p => p.1 = name) = [] := by
      refine List.filter_eq_nil_iff.2 (fun p hp hcontra => ?_)
      obtain ⟨line', hline', hsome⟩ := List.mem_filterMap.1 hp
      have hp1 : p.1 = name := by simpa using hcontra
      exact hlater line' hline' p.2 (by rw [← hp1]; exact hsome)
    have hsplit_list : (((l₁ ++ line :: l₂).filterMap parseOutputLine).filter
          (fun p => p.1 = name))
        = ((l₁.filterMap parseOutputLine).filter (fun p => p.1 = name))
          ++ [(name, v)] := by
      rw [List.filterMap_append, List.filterMap_cons, hline,
        List.filter_append, List.filter_cons, htail]
      simp
    unfold parse_output
    rw [hsplit_list, List.getLast?_concat]
    rfl

/-- A line whose value field is not numeric. -/
def badLine : List Char := "ndcg_cut_10 all notanumber".data

/-- Witness for C8: the qualifying `all` line is retained with its value,
and the malformed-value line is skipped, leaving the rest of the parse
unchanged. -/
theorem parse_output_retains_all_lines_witness :
    parse_output (["foo bar baz".data] ++ "ndcg_cut_10 all 5".data :: [])
        "ndcg_cut_10" = some ((digitsVal ['5'] : ℚ))
    ∧ parse_output (["foo bar baz".data] ++ badLine :: []) "ndcg_cut_10"
      = parse_output (["foo bar baz".data] ++ []) "ndcg_cut_10" :=
  ⟨parse_output_retains_all_lines.2.2.2 ["foo bar baz".data] []
      "ndcg_cut_10 all 5".data "ndcg_cut_10" ((digitsVal ['5'] : ℚ))
      "ndcg_cut_10".data "all".data ['5'] (by decide) rfl rfl rfl
      (fun line' h => absurd h (List.not_mem_nil line')),
    parse_output_retains_all_lines.2.2.1 ["foo bar baz".data] [] badLine
      "ndcg_cut_10" (by decide)⟩

/-! ## Claim C2 — run-file round-trip. Numeral and splitter lemmas. -/

theorem digitChar_isDigit (n : ℕ) (h : n < 10) :
    isDigitChar (digitChar n) = true := by
  interval_cases n <;> decide

theorem charToDigit_digitChar (n : ℕ) (h : n < 10) :
    charToDigit (digitChar n) = n := by
  interval_cases n <;> decide

theorem digitsVal_append_singleton (a : List Char) (c : Char) :
    digitsVal (a ++ [c]) = digitsVal a * 10 + charToDigit c := by
  simp [digitsVal, List.foldl_append]

theorem natToCharsAux_spec :
    ∀ (fuel n : ℕ), n < fuel →
      natToCharsAux fuel n ≠ [] ∧
      (natToCharsAux fuel n).all isDigitChar = true ∧
      digitsVal (natToCharsAux fuel n) = n := by
  intro fuel
  induction fuel with
  | zero => intro n h; exact absurd h (Nat.not_lt_zero n)
  | succ fuel ih =>
    intro n h
    by_cases h10 : n < 10
    · refine ⟨by simp [natToCharsAux, h10], ?_, ?_⟩
      · simp [natToCharsAux, h10, digitChar_isDigit n h10]
      · simp [natToCharsAux, h10, digitsVal, charToDigit_digitChar n h10]
    · have hdivlt : n / 10 < fuel := by
        have h1 : n / 10 < n := Nat.div_lt_self (by omega) (by omega)
        omega
      obtain ⟨hne, hall, hval⟩ := ih (n / 10) hdivlt
      have hmod : n % 10 < 10 := Nat.mod_lt n (by omega)
      refine ⟨by simp [natToCharsAux, h10], ?_, ?_⟩
      · simp only [natToCharsAux, if_neg h10, List.all_append, hall,
          Bool.true_and, List.all_cons, List.all_nil, Bool.and_true]
        exact digitChar_isDigit _ hmod
      · rw [natToCharsAux]
        rw [if_neg h10, digitsVal_append_singleton, hval,
          charToDigit_digitChar _ hmod]
        omega

theorem natToChars_spec (n : ℕ) :
    natToChars n ≠ [] ∧ (natToChars n).all isDigitChar = true ∧
      digitsVal (natToChars n) = n :=
  natToCharsAux_spec (n + 1) n (Nat.lt_succ_self n)

theorem parseNat_natToChars (n : ℕ) : parseNat (natToChars n) = some n := by
  obtain ⟨hne, hall, hval⟩ := natToChars_spec n
  rw [parseNat, if_pos ⟨hne, hall⟩]
  exact congrArg some hval

theorem natToCharsAux_length_le :
    ∀ (fuel n k : ℕ), 1 ≤ k → n < 10 ^ k →
      (natToCharsAux fuel n).length ≤ k := by
  intro fuel
  induction fuel with
  | zero => intro n k _ _; simp [natToCharsAux]
  | succ fuel ih =>
    intro n k hk hn
    by_cases h10 : n < 10
    · simp [natToCharsAux, h10]; omega
    · obtain ⟨k', rfl⟩ : ∃ k', k = k' + 1 := ⟨k - 1, by omega⟩
      have hk' : 1 ≤ k' := by
        rcases Nat.eq_or_lt_of_le hk with h | h
        · exfalso
          rw [← h] at hn
          simp at hn
          omega
        · omega
      have hdiv : n / 10 < 10 ^ k' := by
        rw [Nat.div_lt_iff_lt_mul (by omega)]
        calc n < 10 ^ (k' + 1) := hn
        _ = 10 ^ k' * 10 := by ring
      have := ih (n / 10) k' hk' hdiv
      simp only [natToCharsAux, if_neg h10, List.length_append,
        List.length_cons, List.length_nil]
      omega

theorem natToChars_length_le (n k : ℕ) (hk : 1 ≤ k) (hn : n < 10 ^ k) :
    (natToChars n).length ≤ k :=
  natToCharsAux_length_le (n + 1) n k hk hn

theorem splitOnChar_ne_nil (sep : Char) (l : List Char) :
    splitOnChar sep l ≠ [] := by
  cases l with
  | nil => simp [splitOnChar]
  | cons c cs =>
    rw [splitOnChar]
    split
    · simp
    · split <;> simp

theorem splitOnChar_of_not_mem (sep : Char) (l : List Char)
    (h : sep ∉ l) : splitOnChar sep l = [l] := by
  induction l with
  | nil => rfl
  | cons c cs ih =>
    have hc : c ≠ sep := fun hcontra => h (hcontra ▸ List.mem_cons_self c cs)
    have hcs : sep ∉ cs := fun hcontra => h (List.mem_cons_of_mem c hcontra)
    rw [splitOnChar, ih hcs]
    simp [fun hcontra => hc hcontra]

theorem splitOnChar_append_sep (sep : Char) (a rest : List Char)
    (h : sep ∉ a) : splitOnChar sep (a ++ sep :: rest) = a :: splitOnChar sep rest := by
  induction a with
  | nil =>
    simp only [List.nil_append]
    rw [splitOnChar]
    cases hs : splitOnChar sep rest with
    | nil => exact absurd hs (splitOnChar_ne_nil sep rest)
    | cons p ps => simp
  | cons c cs ih =>
    have hc : c ≠ sep := fun hcontra => h (hcontra ▸ List.mem_cons_self c cs)
    have hcs : sep ∉ cs := fun hcontra => h (List.mem_cons_of_mem c hcontra)
    simp only [List.cons_append]
    rw [splitOnChar, ih hcs]
    simp [fun hcontra => hc hcontra]

theorem isDigitChar_ne_dash (c : Char) (h : isDigitChar c = true) : c ≠ '-' := by
  intro heq; rw [heq] at h; exact absurd h (by decide)

theorem isDigitChar_ne_plus (c : Char) (h : isDigitChar c = true) : c ≠ '+' := by
  intro heq; rw [heq] at h; exact absurd h (by decide)

theorem isDigitChar_ne_dot (c : Char) (h : isDigitChar c = true) : c ≠ '.' := by
  intro heq; rw [heq] at h; exact absurd h (by decide)

theorem isDigitChar_ne_tab (c : Char) (h : isDigitChar c = true) : c ≠ '\t' := by
  intro heq; rw [heq] at h; exact absurd h (by decide)

theorem parseInt_intToChars_pos (i : ℤ) (h : 0 < i) :
    parseInt (intToChars i) = some i := by
  rw [intToChars, if_neg (by omega)]
  obtain ⟨hne, hall, _⟩ := natToChars_spec i.natAbs
  obtain ⟨c, cs, hcons⟩ := List.exists_cons_of_ne_nil hne
  have hcdigit : isDigitChar c = true :=
    List.all_eq_true.1 hall c (by rw [hcons]; exact List.mem_cons_self c cs)
  rw [hcons, parseInt, if_neg (isDigitChar_ne_dash c hcdigit),
    if_neg (isDigitChar_ne_plus c hcdigit), ← hcons, parseNat_natToChars]
  simp [Int.natAbs_of_nonneg (le_of_lt h)]

theorem digitsVal_replicate_zero (k : ℕ) (ds : List Char) :
    digitsVal (List.replicate k '0' ++ ds) = digitsVal ds := by
  induction k with
  | zero => rfl
  | succ k ih =>
    simp only [List.replicate_succ, List.cons_append]
    show List.foldl _ ((0 : ℕ) * 10 + charToDigit '0') _ = _
    have h0 : (0 : ℕ) * 10 + charToDigit '0' = 0 := by decide
    rw [h0]
    exact ih

theorem not_dot_of_all_digits (l : List Char) (h : l.all isDigitChar = true) :
    '.' ∉ l := fun hmem =>
  absurd (List.all_eq_true.1 h '.' hmem) (by decide)

theorem parseFloatCore_concrete (ip fp : List Char) (hipne : ip ≠ [])
    (hipall : ip.all isDigitChar = true) (hfpall : fp.all isDigitChar = true) :
    parseFloatCore (ip ++ '.' :: fp)
      = some ((digitsVal ip : ℚ) + (digitsVal fp : ℚ) / (10 : ℚ) ^ fp.length) := by
  rw [parseFloatCore,
    splitOnChar_append_sep '.' ip fp (not_dot_of_all_digits ip hipall),
    splitOnChar_of_not_mem '.' fp (not_dot_of_all_digits fp hfpall)]
  dsimp only
  rw [if_pos ⟨Or.inl hipne, hipall, hfpall⟩]

theorem parseFloat_formatScore6 (q : ℚ) :
    parseFloat (formatScore6 q) = some (round6 q) := by
  unfold formatScore6
  dsimp only
  obtain ⟨hipne, hipall, hipval⟩ :=
    natToChars_spec ((round (q * 1000000)).natAbs / 1000000)
  obtain ⟨hfrne, hfrall, hfrval⟩ :=
    natToChars_spec ((round (q * 1000000)).natAbs % 1000000)
  set n : ℤ := round (q * 1000000) with hn
  set m : ℕ := n.natAbs with hm
  set ip := natToChars (m / 1000000) with hip
  set fr := natToChars (m % 1000000) with hfr
  set fp := List.replicate (6 - fr.length) '0' ++ fr with hfp
  have hfpall : fp.all isDigitChar = true := by
    rw [hfp, List.all_append, Bool.and_eq_true]
    exact ⟨List.all_eq_true.2 (fun x hx => by
      rw [List.eq_of_mem_replicate hx]; decide), hfrall⟩
  have hfplen : fp.length = 6 := by
    have hlt : m % 1000000 < 10 ^ 6 := by
      have := Nat.mod_lt m (show 0 < 1000000 by norm_num)
      omega
    have hle : fr.length ≤ 6 := natToChars_length_le _ 6 (by norm_num) hlt
    rw [hfp, List.length_append, List.length_replicate]
    omega
  have hfpval : digitsVal fp = m % 1000000 := by
    rw [hfp, digitsVal_replicate_zero, hfrval]
  have hcore : parseFloatCore (ip ++ '.' :: fp) = some ((m : ℚ) / 1000000) := by
    rw [parseFloatCore_concrete ip fp hipne hipall hfpall, hipval, hfpval, hfplen]
    congr 1
    have key : ((m / 1000000 : ℕ) : ℚ) * 1000000 + ((m % 1000000 : ℕ) : ℚ)
        = (m : ℚ) := by
      have h1 := Nat.div_add_mod m 1000000
      have h2 : (((1000000 * (m / 1000000) + m % 1000000 : ℕ)) : ℚ) = (m : ℚ) := by
        rw [h1]
      push_cast at h2
      linarith
    rw [show ((10 : ℚ) ^ 6) = 1000000 by norm_num]
    rw [eq_div_iff (show (1000000 : ℚ) ≠ 0 by norm_num)]
    field_simp
    linarith
  by_cases hneg : n < 0
  · rw [if_pos hneg]
    rw [parseFloat, if_pos rfl, hcore]
    have hcast : ((m : ℕ) : ℚ) = -((n : ℤ) : ℚ) := by
      rw [hm, Int.cast_natAbs, abs_of_neg hneg]
      push_cast; ring
    rw [round6, ← hn]
    rw [show Option.map (fun q : ℚ => -q) (some ((m : ℚ) / 1000000))
      = some (-((m : ℚ) / 1000000)) from rfl]
    congr 1
    rw [hcast]
    ring
  · rw [if_neg hneg]
    obtain ⟨c, cs, hcons⟩ := List.exists_cons_of_ne_nil hipne
    have hcdigit : isDigitChar c = true :=
      List.all_eq_true.1 hipall c (by rw [hcons]; exact List.mem_cons_self c cs)
    rw [show ip ++ '.' :: fp = c :: (cs ++ '.' :: fp) by rw [hcons]; rfl]
    rw [parseFloat, if_neg (isDigitChar_ne_dash c hcdigit),
      if_neg (isDigitChar_ne_plus c hcdigit)]
    rw [show c :: (cs ++ '.' :: fp) = ip ++ '.' :: fp by rw [hcons]; rfl]
    rw [hcore, round6, ← hn]
    congr 1
    have hcast : ((m : ℕ) : ℚ) = ((n : ℤ) : ℚ) := by
      rw [hm, Int.cast_natAbs, abs_of_nonneg (not_lt.1 hneg)]
    rw [hcast]

/-- Character classification of `%.6f` output: digits, the point, or a
leading minus. -/
theorem mem_formatScore6 (q : ℚ) (c : Char) (h : c ∈ formatScore6 q) :
    isDigitChar c = true ∨ c = '.' ∨ c = '-' := by
  unfold formatScore6 at h
  dsimp only at h
  obtain ⟨hipne, hipall, _⟩ :=
    natToChars_spec ((round (q * 1000000)).natAbs / 1000000)
  obtain ⟨_, hfrall, _⟩ :=
    natToChars_spec ((round (q * 1000000)).natAbs % 1000000)
  have hcore : ∀ c', c' ∈ natToChars ((round (q * 1000000)).natAbs / 1000000) ++
      '.' :: (List.replicate
        (6 - (natToChars ((round (q * 1000000)).natAbs % 1000000)).length) '0' ++
        natToChars ((round (q * 1000000)).natAbs % 1000000)) →
      isDigitChar c' = true ∨ c' = '.' ∨ c' = '-' := by
    intro c' hc'
    rcases List.mem_append.1 hc' with hip | hrest
    · exact Or.inl (List.all_eq_true.1 hipall c' hip)
    · rcases List.mem_cons.1 hrest with rfl | htl
      · exact Or.inr (Or.inl rfl)
      · rcases List.mem_append.1 htl with hz | hfr
        · rw [List.eq_of_mem_replicate hz]; exact Or.inl (by decide)
        · exact Or.inl (List.all_eq_true.1 hfrall c' hfr)
  by_cases hneg : round (q * 1000000) < 0
  · rw [if_pos hneg] at h
    rcases List.mem_cons.1 h with rfl | htl
    · exact Or.inr (Or.inr rfl)
    · exact hcore c htl
  · rw [if_neg hneg] at h
    exact hcore c h

theorem tab_not_mem_formatScore6 (q : ℚ) : '\t' ∉ formatScore6 q := by
  intro hmem
  rcases mem_formatScore6 q '\t' hmem with h | h | h
  · exact absurd h (by decide)
  · exact absurd h (by decide)
  · exact absurd h (by decide)

theorem tab_not_mem_natToChars (n : ℕ) : '\t' ∉ natToChars n := by
  intro hmem
  exact absurd (List.all_eq_true.1 (natToChars_spec n).2.1 _ hmem) (by decide)

theorem tab_not_mem_intToChars (i : ℤ) : '\t' ∉ intToChars i := by
  intro hmem
  rw [intToChars] at hmem
  split at hmem
  · rcases List.mem_cons.1 hmem with h | h
    · exact absurd h (by decide)
    · exact tab_not_mem_natToChars _ h
  · exact tab_not_mem_natToChars _ hmem

/-- A field string free of tabs, newlines and carriage returns: such a
field survives the writer's tab-joining and the reader's line iteration
unchanged. -/
def cleanField (s : String) : Bool :=
  s.data.all (fun c => !(c = '\t' || c = '\n' || c = '\x0d'))

/-- Nonempty with a non-whitespace first character (the line start:
`str.strip()` must not eat into the first field). -/
def headNotWs (s : String) : Bool :=
  match s.data with
  | [] => false
  | c :: _ => !(pyWhitespace c)

/-- Nonempty with a non-whitespace last character (the line end). -/
def lastNotWs (s : String) : Bool :=
  match s.data.getLast? with
  | none => false
  | some c => !(pyWhitespace c)

theorem cleanField_tab_not_mem (s : String) (h : cleanField s = true) :
    '\t' ∉ s.data := by
  intro hmem
  exact absurd (List.all_eq_true.1 h _ hmem) (by decide)

theorem headNotWs_spec (s : String) (h : headNotWs s = true) :
    ∃ c cs, s.data = c :: cs ∧ pyWhitespace c = false := by
  unfold headNotWs at h
  split at h
  · exact absurd h (by decide)
  · rename_i c cs heq
    exact ⟨c, cs, heq, by simpa using h⟩

theorem lastNotWs_spec (s : String) (h : lastNotWs s = true) :
    ∃ c, s.data.getLast? = some c ∧ pyWhitespace c = false := by
  unfold lastNotWs at h
  split at h
  · exact absurd h (by decide)
  · rename_i c heq
    exact ⟨c, heq, by simpa using h⟩

theorem pyStrip_eq_self {l : List Char}
    (hh : ∀ c cs, l = c :: cs → pyWhitespace c = false)
    (hl : ∀ c, l.getLast? = some c → pyWhitespace c = false) :
    pyStrip l = l := by
  unfold pyStrip
  have h1 : l.dropWhile pyWhitespace = l := by
    cases l with
    | nil => rfl
    | cons c cs =>
      rw [List.dropWhile_cons, if_neg (by rw [hh c cs rfl]; simp)]
  rw [h1]
  have h2 : l.reverse.dropWhile pyWhitespace = l.reverse := by
    cases hrev : l.reverse with
    | nil => rfl
    | cons c cs =>
      have hlast : l.getLast? = some c := by
        rw [← List.head?_reverse, hrev]; rfl
      rw [List.dropWhile_cons, if_neg (by rw [hl c hlast]; simp)]
  rw [h2, List.reverse_reverse]

theorem getLast?_append_cons {d : Char} (a : List Char) (c : Char)
    (b : List Char) (h : b.getLast? = some d) :
    (a ++ c :: b).getLast? = some d := by
  rw [List.getLast?_append, show (c :: b) = [c] ++ b from rfl,
    List.getLast?_append, h]
  rfl

theorem splitTab_six (f0 f1 f2 f3 f4 f5 : List Char)
    (h0 : '\t' ∉ f0) (h1 : '\t' ∉ f1) (h2 : '\t' ∉ f2) (h3 : '\t' ∉ f3)
    (h4 : '\t' ∉ f4) (h5 : '\t' ∉ f5) :
    splitTab (f0 ++ '\t' :: (f1 ++ '\t' :: (f2 ++ '\t' :: (f3 ++ '\t' ::
      (f4 ++ '\t' :: f5))))) = [f0, f1, f2, f3, f4, f5] := by
  unfold splitTab
  rw [splitOnChar_append_sep _ _ _ h0, splitOnChar_append_sep _ _ _ h1,
    splitOnChar_append_sep _ _ _ h2, splitOnChar_append_sep _ _ _ h3,
    splitOnChar_append_sep _ _ _ h4, splitOnChar_of_not_mem _ _ h5]

/-- Reading back one line this writer produced yields the same row with the
score replaced by its six-decimal rounding, for rows whose string fields are
well-formed and whose rank is positive (as every `RunBuilder` row is). -/
theorem parseTrecLine_to_trec_line (row : TrecRunRow)
    (hqid_clean : cleanField row.query_id = true)
    (hqid_head : headNotWs row.query_id = true)
    (hq0 : cleanField row.q0 = true)
    (hdoc : cleanField row.doc_id = true)
    (hrid_clean : cleanField row.run_id = true)
    (hrid_last : lastNotWs row.run_id = true)
    (hrank : 0 < row.rank) :
    parseTrecLine row.to_trec_line
      = some { row with score := round6 row.score } := by
  obtain ⟨ch, chs, hhead, hchws⟩ := headNotWs_spec _ hqid_head
  obtain ⟨cl, hlastq, hclws⟩ := lastNotWs_spec _ hrid_last
  have hstrip : pyStrip row.to_trec_line = row.to_trec_line := by
    apply pyStrip_eq_self
    · intro c cs hcons
      rw [TrecRunRow.to_trec_line, hhead] at hcons
      have : ch = c := by
        have := congrArg List.head? hcons
        simpa using this
      rw [← this]
      exact hchws
    · intro c hlast
      rw [TrecRunRow.to_trec_line,
        getLast?_append_cons _ _ _ (getLast?_append_cons _ _ _
          (getLast?_append_cons _ _ _ (getLast?_append_cons _ _ _
            (getLast?_append_cons _ _ _ hlastq))))] at hlast
      rw [← Option.some_inj.1 hlast]
      exact hclws
  rw [parseTrecLine, hstrip, TrecRunRow.to_trec_line,
    splitTab_six _ _ _ _ _ _
      (cleanField_tab_not_mem _ hqid_clean)
      (cleanField_tab_not_mem _ hq0)
      (cleanField_tab_not_mem _ hdoc)
      (tab_not_mem_intToChars _)
      (tab_not_mem_formatScore6 _)
      (cleanField_tab_not_mem _ hrid_clean)]
  dsimp only
  rw [parseInt_intToChars_pos _ hrank, parseFloat_formatScore6]
  dsimp only
  rw [if_pos hrank]

/-- The writer prints every score with exactly six digits after the decimal
point. -/
theorem formatScore6_six_digits (q : ℚ) :
    ∃ a b : List Char, formatScore6 q = a ++ '.' :: b ∧ b.length = 6 ∧
      '.' ∉ a ∧ b.all isDigitChar = true := by
  unfold formatScore6
  dsimp only
  obtain ⟨hipne, hipall, _⟩ :=
    natToChars_spec ((round (q * 1000000)).natAbs / 1000000)
  obtain ⟨_, hfrall, _⟩ :=
    natToChars_spec ((round (q * 1000000)).natAbs % 1000000)
  set m : ℕ := (round (q * 1000000)).natAbs with hm
  set ip := natToChars (m / 1000000) with hip
  set fr := natToChars (m % 1000000) with hfr
  set fp := List.replicate (6 - fr.length) '0' ++ fr with hfp
  have hfpall : fp.all isDigitChar = true := by
    rw [hfp, List.all_append, Bool.and_eq_true]
    exact ⟨List.all_eq_true.2 (fun x hx => by
      rw [List.eq_of_mem_replicate hx]; decide), hfrall⟩
  have hfplen : fp.length = 6 := by
    have hlt : m % 1000000 < 10 ^ 6 := by
      have := Nat.mod_lt m (show 0 < 1000000 by norm_num)
      omega
    have hle : fr.length ≤ 6 := natToChars_length_le _ 6 (by norm_num) hlt
    rw [hfp, List.length_append, List.length_replicate]
    omega
  by_cases hneg : round (q * 1000000) < 0
  · refine ⟨'-' :: ip, fp, ?_, hfplen, ?_, hfpall⟩
    · rw [if_pos hneg]
      rfl
    · intro hmem
      rcases List.mem_cons.1 hmem with h | h
      · exact absurd h.symm (by decide)
      · exact not_dot_of_all_digits ip hipall h
  · exact ⟨ip, fp, by rw [if_neg hneg], hfplen,
      not_dot_of_all_digits ip hipall, hfpall⟩

/-- Claim C2, amended: for a run built by `RunBuilder` from well-formed input
(tab/newline-free fields, query ids starting and run id ending in
non-whitespace), writing and re-reading reproduces the rows **with each
score replaced by its six-decimal rounding** — identical tuples exactly when
every score is already a multiple of 10⁻⁶ — with zero lines skipped by the
reader; and the writer prints every score with exactly six digits after the
decimal point. -/
theorem write_read_roundtrip :
    ∀ (responses : List (String × QueryResult)) (run_id : String)
      (metadata : RunMetadata) (path rid2 : String),
    (∀ p ∈ responses, cleanField p.1 = true ∧ headNotWs p.1 = true ∧
        ∀ seg ∈ p.2.segments, cleanField seg.segment_id = true) →
    cleanField run_id = true → lastNotWs run_id = true →
    (((read_trec_run (write_trec_run (build_trec_run responses run_id metadata))
        path rid2).1.rows
      = (build_trec_run responses run_id metadata).rows.map
          (fun row => { row with score := round6 row.score })
     ∧ (read_trec_run (write_trec_run (build_trec_run responses run_id metadata))
        path rid2).2 = 0)
     ∧ ∀ q : ℚ, ∃ a b : List Char, formatScore6 q = a ++ '.' :: b ∧
        b.length = 6 ∧ '.' ∉ a ∧ b.all isDigitChar = true) := by
  intro responses run_id metadata path rid2 hresp hrid hridl
  have hrowwf : ∀ row ∈ (build_trec_run responses run_id metadata).rows,
      parseTrecLine row.to_trec_line
        = some { row with score := round6 row.score } := by
    intro row hrow
    rw [build_trec_run_rows_eq] at hrow
    obtain ⟨p, hp, hrowp⟩ := List.mem_flatMap.1 hrow
    obtain ⟨rs, hrs, rfl⟩ := List.mem_map.1 hrowp
    obtain ⟨hclean, hhead, hsegs⟩ := hresp p hp
    obtain ⟨i, seg⟩ := rs
    have hsegmem : seg ∈ p.2.segments.take 100 := by
      have hmap : seg ∈ List.map Prod.snd ((p.2.segments.take 100).enumFrom 1) :=
        List.mem_map.2 ⟨(i, seg), hrs, rfl⟩
      rwa [List.enumFrom_map_snd] at hmap
    have hrankpos : (0 : ℤ) < (i : ℤ) := by
      have h1 : 1 ≤ i := (List.mem_enumFrom hrs).1
      exact_mod_cast Nat.lt_of_lt_of_le Nat.zero_lt_one h1
    exact parseTrecLine_to_trec_line _ hclean hhead
      (show cleanField "Q0" = true by decide)
      (hsegs seg (List.take_subset 100 p.2.segments hsegmem)) hrid hridl hrankpos
  refine ⟨⟨?_, ?_⟩, formatScore6_six_digits⟩
  · show ((write_trec_run (build_trec_run responses run_id metadata)).filterMap
        parseTrecLine) = _
    rw [write_trec_run, List.filterMap_map]
    exact filterMap_eq_map_of_forall_some (fun row hrow => hrowwf row hrow)
  · show (write_trec_run (build_trec_run responses run_id metadata)).length -
      ((write_trec_run (build_trec_run responses run_id metadata)).filterMap
        parseTrecLine).length = 0
    rw [write_trec_run, List.filterMap_map]
    have hmapped : (build_trec_run responses run_id metadata).rows.filterMap
        (parseTrecLine ∘ TrecRunRow.to_trec_line)
      = (build_trec_run responses run_id metadata).rows.map
          (fun row => { row with score := round6 row.score }) :=
      filterMap_eq_map_of_forall_some (fun row hrow => hrowwf row hrow)
    rw [hmapped, List.length_map, List.length_map]
    omega

/-- The rational 1/3, in normalized constructor form: a score that six-decimal
formatting cannot represent exactly. -/
def qThird : ℚ := ⟨1, 3, by norm_num, by norm_num⟩

/-- A run built by `RunBuilder` holding the score `1/3`. -/
def rtCexRun : TrecRun := build_trec_run [("q1", ⟨[⟨"d1", qThird⟩]⟩)] "r" exMeta

/-- The single row of `rtCexRun`. -/
def rtCexRow : TrecRunRow := ⟨"q1", "Q0", "d1", 1, qThird, "r"⟩

/-- Claim C2, counterexample: writing and re-reading the built run does not
reproduce the identical tuple set: the score comes back as its six-decimal
rounding `333333/1000000 ≠ 1/3`. -/
theorem roundtrip_rounds_scores :
    rtCexRun.rows = [rtCexRow]
    ∧ (read_trec_run (write_trec_run rtCexRun) "p" "unknown").1.rows
      = [{ rtCexRow with score := round6 qThird }]
    ∧ round6 qThird ≠ qThird := by
  have h3 : qThird = 1 / 3 := by
    norm_num [qThird, Rat.mk'_eq_divInt, Rat.divInt_eq_div]
  have hrow := parseTrecLine_to_trec_line rtCexRow
    (by decide) (by decide) (by decide) (by decide) (by decide) (by decide)
    (by decide)
  refine ⟨rfl, ?_, ?_⟩
  · show ((write_trec_run rtCexRun).filterMap parseTrecLine) = _
    rw [show write_trec_run rtCexRun = [rtCexRow.to_trec_line] from rfl]
    rw [List.filterMap_cons, hrow]
    rfl
  · rw [round6, h3]
    intro hcontra
    have hr : round ((1 : ℚ) / 3 * 1000000) = 333333 := by
      norm_num [round_eq]
    rw [hr] at hcontra
    norm_num at hcontra

/-- Witness for C2 (amended): zero lines skipped at the concrete run. -/
theorem write_read_roundtrip_witness :
    (read_trec_run (write_trec_run
      (build_trec_run [("q1", ⟨[⟨"d1", qThird⟩]⟩)] "r" exMeta)) "p" "unknown").2
      = 0 :=
  (write_read_roundtrip [("q1", ⟨[⟨"d1", qThird⟩]⟩)] "r" exMeta "p" "unknown"
    (by intro p hp
        rcases List.mem_singleton.1 hp with rfl
        exact ⟨by decide, by decide, by
          intro seg hseg
          rcases List.mem_singleton.1 hseg with rfl
          decide⟩)
    (by decide) (by decide)).1.2
